import Mathlib

/-!
# Grouping ConfigMaps by VPC: the Starlark, TypeScript and CUE variants

A shallow embedding of the three programs of the repository
(`src/starlark/main.go`, `src/typescript/main.go`, `src/cuelang/main.go`).
Each program marshals a slice of `ConfigMap` structs to JSON, hands the decoded
JSON value to an embedded engine, runs a grouping script and decodes what the
script returns into `[]ConfigMap` again.

The scripts are embedded statement by statement over the dynamic values of
their engine; `print` and `console.log` calls only write to the console and are
left out.  Behaviour of the libraries the programs call (`encoding/json`, the
Starlark interpreter, the JavaScript engine, the CUE evaluator) is modelled by
the small helper definitions that precede each script.
-/

set_option autoImplicit false

/-! ## Go data model -/

/-- A non-nil Go `map[string]string`.  The entries are listed in the order in
which the map is enumerated (Go fixes no order, so every order is a possible
one); a Go map holds each key once. -/
structure StrMap where
  entries : List (String × String)
  nodup : (entries.map Prod.fst).Nodup
deriving DecidableEq

/-- The struct `Metadata`.  `Labels = none` is the nil map. -/
structure Metadata where
  Name : String
  Namespace : String
  Labels : Option StrMap
deriving DecidableEq

/-- The struct `ConfigMap`.  `Data = none` is the nil map. -/
structure ConfigMap where
  APIVersion : String
  Kind : String
  Metadata : Metadata
  Data : Option StrMap
deriving DecidableEq

/-- An IEEE double, kept as its 64-bit pattern: the programs only pass doubles
along, they never compute with them. -/
structure Float64 where
  bits : Nat
deriving DecidableEq

/-- A Go `interface{}` value as `json.Unmarshal` and the converters of the
programs produce them.  `map` lists the entries of a `map[string]interface{}`
in enumeration order. -/
inductive GoValue where
  | nil : GoValue
  | bool (b : Bool) : GoValue
  | int (i : Int) : GoValue
  | int64 (i : Int) : GoValue
  | float64 (f : Float64) : GoValue
  | string (s : String) : GoValue
  | slice (elems : List GoValue) : GoValue
  | map (entries : List (String × GoValue)) : GoValue

/-- Assignment `m[k] = v` on an insertion-ordered mapping: an existing key keeps
its place and takes the new value, a new key goes to the end.  This is what a
Starlark dict, a JavaScript object with non-numeric keys, a JavaScript `Map` and
(up to order) a Go map do. -/
def setEntry {α : Type} (k : String) (v : α) : List (String × α) → List (String × α)
  | [] => [(k, v)]
  | (k0, v0) :: rest => if k0 = k then (k, v) :: rest else (k0, v0) :: setEntry k v rest

/-- Keys of an insertion-ordered mapping. -/
def keysOf {α : Type} (m : List (String × α)) : List String := m.map Prod.fst

/-- The empty, non-nil map. -/
def StrMap.empty : StrMap := ⟨[], List.nodup_nil⟩

/-- Go map assignment `m[k] = v`. -/
def StrMap.insert (m : StrMap) (k v : String) : StrMap where
  entries := setEntry k v m.entries
  nodup := by
    have key : ∀ l : List (String × String),
        (setEntry k v l).map Prod.fst
          = if k ∈ l.map Prod.fst then l.map Prod.fst else l.map Prod.fst ++ [k] := by
      intro l
      induction l with
      | nil => simp [setEntry]
      | cons hd tl ih =>
        by_cases h : hd.1 = k
        · simp [setEntry, h]
        · have h2 : ¬ k = hd.1 := fun e => h e.symm
          simp only [setEntry, h, if_false, List.map_cons, List.mem_cons, h2, false_or, ih]
          split <;> simp
    rw [key]
    split
    · exact m.nodup
    · rename_i hk
      exact List.Nodup.append m.nodup (List.nodup_singleton k) (by simpa using hk)

/-- Go map read `m[k]` with the comma-ok result. -/
def StrMap.get? (m : StrMap) (k : String) : Option String := m.entries.lookup k

/-! ## `encoding/json` on the types of the programs -/

/-- The value `json.Unmarshal` yields for the JSON text of a non-nil
`map[string]string`: an object with one string member per entry. -/
def encodeStrMap (m : StrMap) : GoValue :=
  .map (m.entries.map fun kv => (kv.1, GoValue.string kv.2))

/-- The struct `Metadata` through `json.Marshal` and `json.Unmarshal` into
`interface{}`: `name` is always written; `namespace` and `labels` carry
`omitempty`, so an empty string and a nil or empty map are left out. -/
def encodeMetadata (m : Metadata) : GoValue :=
  .map ([("name", GoValue.string m.Name)]
    ++ (if m.Namespace = "" then [] else [("namespace", GoValue.string m.Namespace)])
    ++ (match m.Labels with
        | some l => if l.entries.isEmpty then [] else [("labels", encodeStrMap l)]
        | none => []))

/-- The struct `ConfigMap` through `json.Marshal` and `json.Unmarshal` into
`interface{}`.  `data` has no `omitempty`: a nil map is written as `null`. -/
def encodeConfigMap (c : ConfigMap) : GoValue :=
  .map [("apiVersion", .string c.APIVersion), ("kind", .string c.Kind),
        ("metadata", encodeMetadata c.Metadata),
        ("data", match c.Data with
                 | some d => encodeStrMap d
                 | none => .nil)]

/-- The lines `json.Marshal(configMaps)`, `json.Unmarshal(configMapsJSON, &v)`
of the three programs, for a non-nil slice: a JSON array of the records. -/
def encodeConfigMaps (configMaps : List ConfigMap) : GoValue :=
  .slice (configMaps.map encodeConfigMap)

/-- Decoding a JSON member into a Go `string` field: an absent member and
`null` leave the zero value, a string is stored, anything else is an
`UnmarshalTypeError`. -/
def decodeString : Option GoValue → Except String String
  | none => .ok ""
  | some .nil => .ok ""
  | some (.string s) => .ok s
  | some _ => .error "json: cannot unmarshal value into Go value of type string"

/-- Decoding the members of a JSON object into a `map[string]string`, one
assignment per member. -/
def decodeStrMapEntries : List (String × GoValue) → StrMap → Except String StrMap
  | [], acc => .ok acc
  | (k, v) :: rest, acc =>
    match decodeString (some v) with
    | .ok s => decodeStrMapEntries rest (acc.insert k s)
    | .error e => .error e

/-- Decoding a JSON member into a `map[string]string` field: an absent member
and `null` leave the nil map, an object allocates a map and fills it. -/
def decodeStrMap : Option GoValue → Except String (Option StrMap)
  | none => .ok none
  | some .nil => .ok none
  | some (.map entries) =>
    match decodeStrMapEntries entries StrMap.empty with
    | .ok m => .ok (some m)
    | .error e => .error e
  | some _ => .error "json: cannot unmarshal value into Go value of type map[string]string"

/-- Decoding a JSON member into the struct `Metadata`. -/
def decodeMetadata : Option GoValue → Except String Metadata
  | none => .ok ⟨"", "", none⟩
  | some .nil => .ok ⟨"", "", none⟩
  | some (.map entries) =>
    match decodeString (entries.lookup "name"), decodeString (entries.lookup "namespace"),
      decodeStrMap (entries.lookup "labels") with
    | .ok name, .ok ns, .ok labels => .ok ⟨name, ns, labels⟩
    | .error e, _, _ => .error e
    | _, .error e, _ => .error e
    | _, _, .error e => .error e
  | some _ => .error "json: cannot unmarshal value into Go value of type main.Metadata"

/-- Decoding one JSON array element into the struct `ConfigMap`. -/
def decodeConfigMap : GoValue → Except String ConfigMap
  | .nil => .ok ⟨"", "", ⟨"", "", none⟩, none⟩
  | .map entries =>
    match decodeString (entries.lookup "apiVersion"), decodeString (entries.lookup "kind"),
      decodeMetadata (entries.lookup "metadata"), decodeStrMap (entries.lookup "data") with
    | .ok apiVersion, .ok kind, .ok metadata, .ok data => .ok ⟨apiVersion, kind, metadata, data⟩
    | .error e, _, _, _ => .error e
    | _, .error e, _, _ => .error e
    | _, _, .error e, _ => .error e
    | _, _, _, .error e => .error e
  | _ => .error "json: cannot unmarshal value into Go value of type main.ConfigMap"

/-- Decoding the elements of a JSON array, in order. -/
def decodeElems : List GoValue → Except String (List ConfigMap)
  | [] => .ok []
  | v :: rest =>
    match decodeConfigMap v, decodeElems rest with
    | .ok c, .ok cs => .ok (c :: cs)
    | .error e, _ => .error e
    | _, .error e => .error e

/-- The lines `json.Marshal(result)`, `json.Unmarshal(resultJSON, &mergedConfigMaps)`
of the programs: the script result decoded into `[]ConfigMap`. -/
def decodeConfigMaps : GoValue → Except String (List ConfigMap)
  | .nil => .ok []
  | .slice elems => decodeElems elems
  | _ => .error "json: cannot unmarshal value into Go value of type []main.ConfigMap"

/-! ## The Starlark variant (`src/starlark/main.go`) -/

/-- A Starlark value.  A dict lists its items in insertion order; the dicts of
the program have string keys only (`goToStarlark` builds every key with
`starlark.String`, the script uses string literals and label values). -/
inductive SValue where
  | none : SValue
  | bool (b : Bool) : SValue
  | int (i : Int) : SValue
  | float (f : Float64) : SValue
  | string (s : String) : SValue
  | list (elems : List SValue) : SValue
  | dict (items : List (String × SValue)) : SValue

mutual
/-- The Go function `goToStarlark`.  The `default` branch is not reachable from a
`GoValue`. -/
def goToStarlark : GoValue → SValue
  | .nil => .none
  | .bool v => .bool v
  | .int v => .int v
  | .int64 v => .int v
  | .float64 v => .float v
  | .string v => .string v
  | .slice v => .list (goToStarlarkElems v)
  | .map v => .dict (goToStarlarkEntries v [])
/-- The loop `for i, elem := range v` of `goToStarlark`. -/
def goToStarlarkElems : List GoValue → List SValue
  | [] => []
  | elem :: rest => goToStarlark elem :: goToStarlarkElems rest
/-- The loop `for key, val := range v` of `goToStarlark`, one `dict.SetKey`
per entry. -/
def goToStarlarkEntries : List (String × GoValue) → List (String × SValue) → List (String × SValue)
  | [], dict => dict
  | (key, val) :: rest, dict => goToStarlarkEntries rest (setEntry key (goToStarlark val) dict)
end

mutual
/-- The Go function `starlarkToGo`.  `Int64()` yields 0 for an integer outside
the 64-bit range. -/
def starlarkToGo : SValue → GoValue
  | .none => .nil
  | .bool v => .bool v
  | .int v => .int64 (if -(2 : Int) ^ 63 ≤ v ∧ v < (2 : Int) ^ 63 then v else 0)
  | .float v => .float64 v
  | .string v => .string v
  | .list v => .slice (starlarkToGoElems v)
  | .dict v => .map (starlarkToGoItems v [])
/-- The loop `for i := 0; i < v.Len(); i++` of `starlarkToGo`. -/
def starlarkToGoElems : List SValue → List GoValue
  | [] => []
  | elem :: rest => starlarkToGo elem :: starlarkToGoElems rest
/-- The loop `for _, item := range v.Items()` of `starlarkToGo`, one map
assignment per item. -/
def starlarkToGoItems : List (String × SValue) → List (String × GoValue) → List (String × GoValue)
  | [], result => result
  | (key, val) :: rest, result => starlarkToGoItems rest (setEntry key (starlarkToGo val) result)
end

namespace Starlark

/-- Truth value of a Starlark value: `None`, `False`, zero, the empty string and
empty collections are false. -/
def truth : SValue → Bool
  | .none => false
  | .bool b => b
  | .int i => i != 0
  | .float f => f.bits % 2 ^ 63 != 0
  | .string s => s != ""
  | .list elems => !elems.isEmpty
  | .dict items => !items.isEmpty

/-- The method call `x.get(key, dflt)`: only a dict has the method. -/
def get (x : SValue) (key : String) (dflt : SValue) : Except String SValue :=
  match x with
  | .dict items => .ok ((items.lookup key).getD dflt)
  | _ => .error "value has no .get field or method"

/-- The index expression `x[key]` with a string key: defined on a dict that
holds the key. -/
def index (x : SValue) (key : String) : Except String SValue :=
  match x with
  | .dict items =>
    match items.lookup key with
    | some v => .ok v
    | none => .error "key not in dict"
  | _ => .error "unhandled index operation"

/-- The method call `x.items()`: only a dict has the method. -/
def items (x : SValue) : Except String (List (String × SValue)) :=
  match x with
  | .dict kvs => .ok kvs
  | _ => .error "value has no .items field or method"

/-- The sequence a `for` loop runs over: the elements of a list, the keys of a
dict; the other values are not iterable. -/
def iterate (x : SValue) : Except String (List SValue) :=
  match x with
  | .list elems => .ok elems
  | .dict kvs => .ok (kvs.map fun kv => SValue.string kv.1)
  | _ => .error "value is not iterable"

/-- The expression `x + s` for a string `s`: Starlark converts nothing, so it is
defined for a string `x` only. -/
def addString (x : SValue) (s : String) : Except String SValue :=
  match x with
  | .string a => .ok (.string (a ++ s))
  | _ => .error "unknown binary op: value + string"

/-- The first loop of `group_by_vpc_and_merge`, lines 165-175, over the
remaining records and the dict `vpc_groups`.  A label value that is true but is
no string is refused here: as a dict key it is either unhashable or ends as a
`metadata.name` that `json.Unmarshal` rejects. -/
def groupLoop : List SValue → List (String × List SValue) →
    Except String (List (String × List SValue))
  | [], vpc_groups => .ok vpc_groups
  | config_map :: rest, vpc_groups => do
    let metadata ← get config_map "metadata" (.dict [])
    let labels ← get metadata "labels" (.dict [])
    let vpc_id ← get labels "vpc-id" .none
    if !truth vpc_id then
      groupLoop rest vpc_groups
    else
      match vpc_id with
      | .string key =>
        let vpc_groups :=
          if (vpc_groups.lookup key).isNone then setEntry key [] vpc_groups else vpc_groups
        let vpc_groups := setEntry key ((vpc_groups.lookup key).getD [] ++ [config_map]) vpc_groups
        groupLoop rest vpc_groups
      | _ => .error "vpc-id label is not a string"

/-- The loop `for key, value in cm_data.items()`, lines 196-201. -/
def dataLoop (cm_name : SValue) : List (String × SValue) → List (String × SValue) →
    Except String (List (String × SValue))
  | [], merged_data => .ok merged_data
  | (key, value) :: rest, merged_data =>
    if key = "subnet-id" then do
      let dotted ← addString cm_name "."
      match ← addString dotted key with
      | .string new_key => dataLoop cm_name rest (setEntry new_key value merged_data)
      | _ => .error "unreachable: a sum with a string is a string"
    else
      dataLoop cm_name rest merged_data

/-- The loop `for cm in config_maps_in_vpc`, lines 187-201, over the remaining
records of the group and the variables `merged_data` and `namespace` (here
`nspace`). -/
def recordLoop : List SValue → List (String × SValue) × SValue →
    Except String (List (String × SValue) × SValue)
  | [], state => .ok state
  | cm :: rest, (merged_data, nspace) => do
    let metadata ← get cm "metadata" (.dict [])
    let cond ← get metadata "namespace" .none
    let nspace ← if truth cond then (do index (← index cm "metadata") "namespace") else pure nspace
    let metadata ← get cm "metadata" (.dict [])
    let cm_name ← get metadata "name" (.string "")
    let cm_data ← get cm "data" (.dict [])
    let entries ← items cm_data
    let merged_data ← dataLoop cm_name entries merged_data
    recordLoop rest (merged_data, nspace)

/-- The loop `for vpc_id, config_maps_in_vpc in vpc_groups.items()`, lines
180-218, over the remaining groups and the list `merged_config_maps`. -/
def mergeLoop : List (String × List SValue) → List SValue → Except String (List SValue)
  | [], merged_config_maps => .ok merged_config_maps
  | (vpc_id, config_maps_in_vpc) :: rest, merged_config_maps => do
    let (merged_data, nspace) ← recordLoop config_maps_in_vpc ([], .string "default")
    let merged_config_map := SValue.dict [
      ("apiVersion", .string "v1"),
      ("kind", .string "ConfigMap"),
      ("metadata", .dict [
        ("name", .string vpc_id),
        ("namespace", nspace),
        ("labels", .dict [("vpc-id", .string vpc_id), ("merged", .string "true")])]),
      ("data", .dict merged_data)]
    mergeLoop rest (merged_config_maps ++ [merged_config_map])

/-- The Starlark function `group_by_vpc_and_merge`. -/
def group_by_vpc_and_merge (config_maps : SValue) : Except String SValue := do
  let records ← iterate config_maps
  let vpc_groups ← groupLoop records []
  let merged_config_maps ← mergeLoop vpc_groups []
  return .list merged_config_maps

end Starlark

/-- The Go function `processWithStarlark` of `src/starlark/main.go`, for a
non-nil slice. -/
def processWithStarlark (configMaps : List ConfigMap) : Except String (List ConfigMap) := do
  let configMapsInterface := encodeConfigMaps configMaps
  let configMapsValue := goToStarlark configMapsInterface
  let resultValue ← Starlark.group_by_vpc_and_merge configMapsValue
  let resultGo := starlarkToGo resultValue
  decodeConfigMaps resultGo

/-! ## The TypeScript variant (`src/typescript/main.go`) -/

/-- A JavaScript value of the engine.  Numbers are an integer or a double, as
the engine keeps them; an object lists its own properties in insertion order.
The arrays and objects built from the Go input are wrappers around the Go
slices and maps. -/
inductive JSValue where
  | undefined : JSValue
  | null : JSValue
  | bool (b : Bool) : JSValue
  | int (i : Int) : JSValue
  | float (f : Float64) : JSValue
  | string (s : String) : JSValue
  | array (elems : List JSValue) : JSValue
  | object (props : List (String × JSValue)) : JSValue

mutual
/-- The call `vm.Set("inputConfigMaps", configMapsJS)`: the JavaScript view of
a Go value. -/
def toJS : GoValue → JSValue
  | .nil => .null
  | .bool v => .bool v
  | .int v => .int v
  | .int64 v => .int v
  | .float64 v => .float v
  | .string v => .string v
  | .slice v => .array (toJSElems v)
  | .map v => .object (toJSEntries v)
/-- The elements of a wrapped slice. -/
def toJSElems : List GoValue → List JSValue
  | [] => []
  | elem :: rest => toJS elem :: toJSElems rest
/-- The properties of a wrapped map. -/
def toJSEntries : List (String × GoValue) → List (String × JSValue)
  | [] => []
  | (key, val) :: rest => (key, toJS val) :: toJSEntries rest
end

mutual
/-- The call `result.Export()`: the Go value of a JavaScript value. -/
def exportJS : JSValue → GoValue
  | .undefined => .nil
  | .null => .nil
  | .bool v => .bool v
  | .int v => .int64 v
  | .float v => .float64 v
  | .string v => .string v
  | .array v => .slice (exportJSElems v)
  | .object v => .map (exportJSProps v [])
/-- The elements of an exported array. -/
def exportJSElems : List JSValue → List GoValue
  | [] => []
  | elem :: rest => exportJS elem :: exportJSElems rest
/-- The own properties of an exported object, one map assignment each. -/
def exportJSProps : List (String × JSValue) → List (String × GoValue) → List (String × GoValue)
  | [], result => result
  | (key, val) :: rest, result => exportJSProps rest (setEntry key (exportJS val) result)
end

namespace TypeScript

/-- Truth value of a JavaScript value: `undefined`, `null`, `false`, zero, NaN
and the empty string are false. -/
def truthy : JSValue → Bool
  | .undefined => false
  | .null => false
  | .bool b => b
  | .int i => i != 0
  | .float f => f.bits % 2 ^ 63 != 0 && f.bits % 2 ^ 63 ≤ 0x7FF0000000000000
  | .string s => s != ""
  | .array _ => true
  | .object _ => true

/-- The property read `x.name` or `x[name]`, for a name that no prototype
defines and that is no array index (the script reads `metadata`, `labels`,
`vpc-id`, `namespace`, `name` and `data`): a `TypeError` on `undefined` and
`null`, the own property of an object, `undefined` otherwise. -/
def getProp (x : JSValue) (name : String) : Except String JSValue :=
  match x with
  | .undefined => .error "TypeError: Cannot read property of undefined"
  | .null => .error "TypeError: Cannot read property of null"
  | .object props => .ok ((props.lookup name).getD .undefined)
  | _ => .ok .undefined

/-- The optional chain `x?.[name]`: `undefined` when `x` is `undefined` or
`null`. -/
def optProp (x : JSValue) (name : String) : Except String JSValue :=
  match x with
  | .undefined => .ok .undefined
  | .null => .ok .undefined
  | _ => getProp x name

/-- The sequence a `for ... of` loop runs over: the elements of an array, the
code points of a string; the other values are not iterable. -/
def iterate (x : JSValue) : Except String (List JSValue) :=
  match x with
  | .array elems => .ok elems
  | .string s => .ok (s.toList.map fun c => JSValue.string (String.singleton c))
  | _ => .error "TypeError: value is not iterable"

/-- The call `Object.entries(x)`: a `TypeError` on `undefined` and `null`, the
own properties of an object, the indexed elements of an array or a string,
nothing for a boolean or a number. -/
def objectEntries (x : JSValue) : Except String (List (String × JSValue)) :=
  match x with
  | .undefined => .error "TypeError: Cannot convert undefined or null to object"
  | .null => .error "TypeError: Cannot convert undefined or null to object"
  | .object props => .ok props
  | .array elems => .ok (elems.enum.map fun ix => (toString ix.1, ix.2))
  | .string s =>
    .ok (s.toList.enum.map fun ix => (toString ix.1, JSValue.string (String.singleton ix.2)))
  | _ => .ok []

/-- The expression `x + s` for a string `s`, which is the text of `x` followed
by `s`.  The texts of numbers, arrays and objects are outside this model and
are reported as an error; no `metadata.name` of an encoded record is one. -/
def addString (x : JSValue) (s : String) : Except String String :=
  match x with
  | .string a => .ok (a ++ s)
  | .undefined => .ok ("undefined" ++ s)
  | .null => .ok ("null" ++ s)
  | .bool true => .ok ("true" ++ s)
  | .bool false => .ok ("false" ++ s)
  | _ => .error "text of a number, an array or an object: not modelled"

/-- The first loop of `groupByVpcAndMerge`, lines 186-198, over the remaining
records and the `Map` `vpcGroups`.  A label value that is true but is no string
is refused here: as a key it would end as a `metadata.name` that
`json.Unmarshal` rejects. -/
def groupLoop : List JSValue → List (String × List JSValue) →
    Except String (List (String × List JSValue))
  | [], vpcGroups => .ok vpcGroups
  | configMap :: rest, vpcGroups => do
    let metadata ← getProp configMap "metadata"
    let labels ← getProp metadata "labels"
    let vpcId ← optProp labels "vpc-id"
    if !truthy vpcId then
      groupLoop rest vpcGroups
    else
      match vpcId with
      | .string key =>
        let vpcGroups :=
          if (vpcGroups.lookup key).isNone then setEntry key [] vpcGroups else vpcGroups
        let vpcGroups := setEntry key ((vpcGroups.lookup key).getD [] ++ [configMap]) vpcGroups
        groupLoop rest vpcGroups
      | _ => .error "vpc-id label is not a string"

/-- The loop `for (const [key, value] of Object.entries(cm.data))`, lines
217-224. -/
def dataLoop (cm : JSValue) : List (String × JSValue) → List (String × JSValue) →
    Except String (List (String × JSValue))
  | [], mergedData => .ok mergedData
  | (key, value) :: rest, mergedData =>
    if key = "subnet-id" then do
      let metadata ← getProp cm "metadata"
      let name ← getProp metadata "name"
      let dotted ← addString name "."
      let newKey := dotted ++ key
      dataLoop cm rest (setEntry newKey value mergedData)
    else
      dataLoop cm rest mergedData

/-- The loop `for (const cm of configMapsInVpc)`, lines 210-225, over the
remaining records of the group and the variables `mergedData` and `namespace`
(here `nspace`). -/
def recordLoop : List JSValue → List (String × JSValue) × JSValue →
    Except String (List (String × JSValue) × JSValue)
  | [], state => .ok state
  | cm :: rest, (mergedData, nspace) => do
    let metadata ← getProp cm "metadata"
    let cond ← getProp metadata "namespace"
    let nspace ← if truthy cond then (do getProp (← getProp cm "metadata") "namespace") else pure nspace
    let data ← getProp cm "data"
    let entries ← objectEntries data
    let mergedData ← dataLoop cm entries mergedData
    recordLoop rest (mergedData, nspace)

/-- The loop `for (const [vpcId, configMapsInVpc] of vpcGroups)`, lines
203-243, over the remaining groups and the array `mergedConfigMaps`. -/
def mergeLoop : List (String × List JSValue) → List JSValue → Except String (List JSValue)
  | [], mergedConfigMaps => .ok mergedConfigMaps
  | (vpcId, configMapsInVpc) :: rest, mergedConfigMaps => do
    let (mergedData, nspace) ← recordLoop configMapsInVpc ([], .string "default")
    let mergedConfigMap := JSValue.object [
      ("apiVersion", .string "v1"),
      ("kind", .string "ConfigMap"),
      ("metadata", .object [
        ("name", .string vpcId),
        ("namespace", nspace),
        ("labels", .object [("vpc-id", .string vpcId), ("merged", .string "true")])]),
      ("data", .object mergedData)]
    mergeLoop rest (mergedConfigMaps ++ [mergedConfigMap])

/-- The TypeScript function `groupByVpcAndMerge`. -/
def groupByVpcAndMerge (configMaps : JSValue) : Except String JSValue := do
  let records ← iterate configMaps
  let vpcGroups ← groupLoop records []
  let mergedConfigMaps ← mergeLoop vpcGroups []
  return .array mergedConfigMaps

end TypeScript

/-- The Go function `processWithTypeScript` of `src/typescript/main.go`, for a
non-nil slice.  The transpiler only erases the type annotations of the script,
and the source map only shapes the text of an error. -/
def processWithTypeScript (configMaps : List ConfigMap) : Except String (List ConfigMap) := do
  let configMapsJS := encodeConfigMaps configMaps
  let inputConfigMaps := toJS configMapsJS
  let result ← TypeScript.groupByVpcAndMerge inputConfigMaps
  decodeConfigMaps (exportJS result)

/-! ## The CUE variant (`src/cuelang/main.go`)

The CUE script is declarative: a field that several comprehension clauses
produce holds the unification of all the values given to it.  Its values are
typed by the schema `#ConfigMap`, so the embedding keeps the evaluated fields in
Lean structures.  A value is an error (bottom) when two different strings are
unified; an error anywhere under `filled` or `mergedConfigMaps` makes one of the
`Err()` checks or `Decode` of `processWithCUE` return an error.  A field that
stays the bare type `string`, and a comprehension whose guard refers to a
field that is not there, are incomplete; `Decode` is taken to refuse them as
well (no statement below depends on that reading). -/

namespace Cue

/-- A CUE value of kind string: the type `string`, a string literal, or the
bottom value of two conflicting literals. -/
inductive Str where
  | any : Str
  | lit (s : String) : Str
  | conflict : Str
deriving DecidableEq

/-- Unification `a & b` of two values of kind string. -/
def Str.unify : Str → Str → Str
  | .any, b => b
  | a, .any => a
  | .lit a, .lit b => if a = b then .lit a else .conflict
  | _, _ => .conflict

/-- An element of `inputConfigMaps` unified with `#ConfigMap`.  The schema
declares `namespace: string`, so an element without the member has the value
`string` there; `labels` and `data` are structs of strings, empty when the
member is absent. -/
structure Record where
  name : String
  nspace : Str
  labels : List (String × String)
  data : List (String × String)

/-- The members of an encoded `map[string]string` as a struct of strings
(`[string]: string`). -/
def stringFields : List (String × GoValue) → Except String (List (String × String))
  | [] => .ok []
  | (k, .string v) :: rest =>
    match stringFields rest with
    | .ok fields => .ok ((k, v) :: fields)
    | .error e => .error e
  | _ :: _ => .error "conflicting values: field is not a string"

/-- One element of the list given to `FillPath`, unified with `#ConfigMap`.
`data: null` conflicts with the struct type of `data`. -/
def unifyConfigMap : GoValue → Except String Record
  | .map entries =>
    match entries.lookup "metadata", entries.lookup "data" with
    | some (.map metadata), some (.map data) =>
      match metadata.lookup "name", metadata.lookup "namespace", metadata.lookup "labels",
        stringFields data with
      | some (.string name), none, none, .ok d => .ok ⟨name, .any, [], d⟩
      | some (.string name), some (.string ns), none, .ok d => .ok ⟨name, .lit ns, [], d⟩
      | some (.string name), none, some (.map labels), .ok d =>
        match stringFields labels with
        | .ok l => .ok ⟨name, .any, l, d⟩
        | .error e => .error e
      | some (.string name), some (.string ns), some (.map labels), .ok d =>
        match stringFields labels with
        | .ok l => .ok ⟨name, .lit ns, l, d⟩
        | .error e => .error e
      | _, _, _, _ => .error "conflicting values in metadata or data"
    | _, _ => .error "conflicting values: metadata or data is not a struct"
  | _ => .error "conflicting values: element is not a struct"

/-- The elements of the list given to `FillPath`, in order. -/
def unifyElems : List GoValue → Except String (List Record)
  | [] => .ok []
  | v :: rest =>
    match unifyConfigMap v, unifyElems rest with
    | .ok r, .ok rs => .ok (r :: rs)
    | .error e, _ => .error e
    | _, .error e => .error e

/-- The lines `ctx.Encode(configMapsInterface)`, `value.FillPath(...)` and the
check `filled.Err()`. -/
def fillPath : GoValue → Except String (List Record)
  | .slice elems => unifyElems elems
  | _ => .error "conflicting values: inputConfigMaps is not a list"

/-- A field of `vpcGroups`: `vpcId` and `namespace` (`configMaps` stays the open
list type and is not read again). -/
structure Group where
  vpcId : Str
  nspace : Str

/-- The comprehension `vpcGroups`, lines 181-192, over the remaining elements
and the fields produced so far.  The guard `vid != _|_` holds when the element
has a `vpc-id` label; a field produced again is unified with what it holds. -/
def vpcGroups : List Record → List (String × Group) → List (String × Group)
  | [], fields => fields
  | cm :: rest, fields =>
    match cm.labels.lookup "vpc-id" with
    | none => vpcGroups rest fields
    | some vid =>
      vpcGroups rest (setEntry vid
        ⟨((fields.lookup vid).getD ⟨.any, .any⟩).vpcId.unify (.lit vid),
          ((fields.lookup vid).getD ⟨.any, .any⟩).nspace.unify cm.nspace⟩ fields)

/-- A field of `enrichedGroups`. -/
structure EnrichedGroup where
  vpcId : Str
  nspace : Str
  configMaps : Except String (List Record)

/-- The list comprehension `for cm in inputConfigMaps if
cm.metadata.labels["vpc-id"] == vid {cm}`, lines 200-203.  The guard has no value
for an element without the label. -/
def selectConfigMaps (vid : String) : List Record → Except String (List Record)
  | [] => .ok []
  | cm :: rest =>
    match cm.labels.lookup "vpc-id", selectConfigMaps vid rest with
    | some v, .ok selected => .ok (if v = vid then cm :: selected else selected)
    | none, _ => .error "undefined field: vpc-id"
    | _, .error e => .error e

/-- The comprehension `enrichedGroups`, lines 195-206. -/
def enrichedGroups (inputConfigMaps : List Record) (vpcGroups : List (String × Group)) :
    List (String × EnrichedGroup) :=
  vpcGroups.map fun g => (g.1, ⟨g.2.vpcId, g.2.nspace, selectConfigMaps g.1 inputConfigMaps⟩)

/-- A field produced by a comprehension: unified with the value the struct
already holds for it. -/
def unifyField (k : String) (v : Str) (fields : List (String × Str)) : List (String × Str) :=
  setEntry k (((fields.lookup k).getD .any).unify v) fields

/-- The clauses `for key, value in cm.data if key == "subnet-id"` of the `data`
comprehension for one element, lines 224-227. -/
def dataClauses (cm : Record) : List (String × String) → List (String × Str) → List (String × Str)
  | [], fields => fields
  | (key, value) :: rest, fields =>
    if key = "subnet-id" then
      dataClauses cm rest (unifyField (cm.name ++ "." ++ key) (.lit value) fields)
    else
      dataClauses cm rest fields

/-- The clause `for cm in group.configMaps` of the `data` comprehension, line
223. -/
def dataFields : List Record → List (String × Str) → List (String × Str)
  | [], fields => fields
  | cm :: rest, fields => dataFields rest (dataClauses cm cm.data fields)

/-- An element of `mergedConfigMaps`: the fields that are not literals of the
script. -/
structure Merged where
  name : String
  nspace : Str
  data : Except String (List (String × Str))

/-- The list comprehension `mergedConfigMaps`, lines 209-231. -/
def mergedConfigMaps (enriched : List (String × EnrichedGroup)) : List Merged :=
  enriched.map fun g =>
    ⟨g.1, g.2.nspace,
      match g.2.configMaps with
      | .ok configMaps => .ok (dataFields configMaps [])
      | .error e => .error e⟩

/-- The Go value of a value of kind string: only a literal has one. -/
def decodeStr : Str → Except String GoValue
  | .lit s => .ok (.string s)
  | .any => .error "incomplete value string"
  | .conflict => .error "conflicting values"

/-- The Go values of the fields of a struct of strings. -/
def decodeFields : List (String × Str) → Except String (List (String × GoValue))
  | [] => .ok []
  | (k, v) :: rest =>
    match decodeStr v, decodeFields rest with
    | .ok x, .ok xs => .ok ((k, x) :: xs)
    | .error e, _ => .error e
    | _, .error e => .error e

/-- The Go value of one element of `mergedConfigMaps`. -/
def decodeMerged (m : Merged) : Except String GoValue :=
  match decodeStr m.nspace, m.data with
  | .ok ns, .ok fields =>
    match decodeFields fields with
    | .ok data =>
      .ok (.map [
        ("apiVersion", .string "v1"),
        ("kind", .string "ConfigMap"),
        ("metadata", .map [
          ("name", .string m.name),
          ("namespace", ns),
          ("labels", .map [("vpc-id", .string m.name), ("merged", .string "true")])]),
        ("data", .map data)])
    | .error e => .error e
  | .error e, _ => .error e
  | _, .error e => .error e

/-- The Go values of the elements of `mergedConfigMaps`. -/
def decodeList : List Merged → Except String (List GoValue)
  | [] => .ok []
  | m :: rest =>
    match decodeMerged m, decodeList rest with
    | .ok x, .ok xs => .ok (x :: xs)
    | .error e, _ => .error e
    | _, .error e => .error e

end Cue

/-- The Go function `processWithCUE` of `src/cuelang/main.go`, for a non-nil
slice.  The loop over `enrichedGroups` in the middle of the function only
prints. -/
def processWithCUE (configMaps : List ConfigMap) : Except String (List ConfigMap) := do
  let configMapsInterface := encodeConfigMaps configMaps
  let inputConfigMaps ← Cue.fillPath configMapsInterface
  let vpcGroups := Cue.vpcGroups inputConfigMaps []
  let enrichedGroups := Cue.enrichedGroups inputConfigMaps vpcGroups
  let mergedValue := Cue.mergedConfigMaps enrichedGroups
  let mergedInterface ← Cue.decodeList mergedValue
  decodeConfigMaps (.slice mergedInterface)

/-- The five records hardcoded in `main` (the same in the three programs). -/
def sampleConfigMaps : List ConfigMap := [
  ⟨"v1", "ConfigMap",
    ⟨"subnet-az1a", "default", some ⟨[("vpc-id", "vpc-12345"), ("az", "ap-northeast-1a")], by decide⟩⟩,
    some ⟨[("subnet-id", "subnet-aaa111"), ("cidr-block", "10.0.1.0/24"),
      ("description", "Subnet in AZ 1a")], by decide⟩⟩,
  ⟨"v1", "ConfigMap",
    ⟨"subnet-az1c", "default", some ⟨[("vpc-id", "vpc-12345"), ("az", "ap-northeast-1c")], by decide⟩⟩,
    some ⟨[("subnet-id", "subnet-ccc333"), ("cidr-block", "10.0.3.0/24"),
      ("description", "Subnet in AZ 1c")], by decide⟩⟩,
  ⟨"v1", "ConfigMap",
    ⟨"subnet-az1d", "default", some ⟨[("vpc-id", "vpc-12345"), ("az", "ap-northeast-1d")], by decide⟩⟩,
    some ⟨[("subnet-id", "subnet-ddd444"), ("cidr-block", "10.0.4.0/24"),
      ("description", "Subnet in AZ 1d")], by decide⟩⟩,
  ⟨"v1", "ConfigMap",
    ⟨"subnet-vpc2-az1a", "default", some ⟨[("vpc-id", "vpc-67890"), ("az", "ap-northeast-1a")], by decide⟩⟩,
    some ⟨[("subnet-id", "subnet-bbb222"), ("cidr-block", "192.168.1.0/24"),
      ("description", "Subnet in VPC2 AZ 1a")], by decide⟩⟩,
  ⟨"v1", "ConfigMap",
    ⟨"subnet-vpc2-az1c", "default", some ⟨[("vpc-id", "vpc-67890"), ("az", "ap-northeast-1c")], by decide⟩⟩,
    some ⟨[("subnet-id", "subnet-eee555"), ("cidr-block", "192.168.2.0/24"),
      ("description", "Subnet in VPC2 AZ 1c")], by decide⟩⟩]

/-! ## Notions of the specification -/

/-- The value of the `vpc-id` label of a record, when the record has the label. -/
def vpcLabel (c : ConfigMap) : Option String :=
  c.Metadata.Labels.bind fun l => l.get? "vpc-id"

/-- The group key of a record: its `vpc-id` label value when that is present and
not empty. -/
def groupKey (c : ConfigMap) : Option String :=
  (vpcLabel c).filter fun v => v ≠ ""

/-- The `subnet-id` entry of the data of a record, when there is one. -/
def subnetId (c : ConfigMap) : Option String :=
  c.Data.bind fun d => d.get? "subnet-id"

/-- A list with every repeated occurrence after the first removed. -/
def firstSeen : List String → List String
  | [] => []
  | x :: xs => x :: (firstSeen xs).filter fun y => y ≠ x

/-- The input records labelled `vpc-id` = `k`, in input order. -/
def groupOf (k : String) (configMaps : List ConfigMap) : List ConfigMap :=
  configMaps.filter fun c => groupKey c = some k

/-- The data mapping the specification describes for a group: visit the records
in order and, for each one whose data has a `subnet-id` entry, insert the pair
(record name + ".subnet-id", that value), a later insertion overwriting an
earlier one with the same key. -/
def specMergedData (group : List ConfigMap) : StrMap :=
  group.foldl (fun m c =>
    match subnetId c with
    | some v => m.insert (c.Metadata.Name ++ ".subnet-id") v
    | none => m) StrMap.empty

/-- The namespace the specification describes for a group: that of the last
record with a non-empty namespace, `"default"` when there is none. -/
def specMergedNamespace (group : List ConfigMap) : String :=
  ((group.map fun c => c.Metadata.Namespace).filter fun n => n ≠ "").getLast?.getD "default"

/-- The labels of a merged record: `vpc-id` and `merged`. -/
def specMergedLabels (k : String) : StrMap :=
  (StrMap.empty.insert "vpc-id" k).insert "merged" "true"

/-- The merged record the specification describes for the group with key `k`. -/
def specMergedRecord (k : String) (group : List ConfigMap) : ConfigMap :=
  ⟨"v1", "ConfigMap", ⟨k, specMergedNamespace group, some (specMergedLabels k)⟩,
    some (specMergedData group)⟩

/-- The output the specification describes: one merged record per group key, in
first-seen order of the keys. -/
def specTransform (configMaps : List ConfigMap) : List ConfigMap :=
  (firstSeen (configMaps.filterMap groupKey)).map fun k =>
    specMergedRecord k (groupOf k configMaps)

/-- Every record that carries a non-empty `vpc-id` label has a data mapping. -/
def LabelledHaveData (configMaps : List ConfigMap) : Prop :=
  ∀ c ∈ configMaps, groupKey c ≠ none → c.Data ≠ none

/-- The names of a list of records. -/
def namesOf (configMaps : List ConfigMap) : List String :=
  configMaps.map fun c => c.Metadata.Name

/-- Number of entries of the data mapping of a record (0 for the nil map). -/
def dataSize (c : ConfigMap) : Nat :=
  match c.Data with
  | some d => d.entries.length
  | none => 0

/-! ## Auxiliary definitions for the proofs -/

/-- The two statements `if k not in groups: groups[k] = []` and
`groups[k].append(c)`. -/
def addToGroup {α : Type} (k : String) (c : α) (groups : List (String × List α)) :
    List (String × List α) :=
  setEntry k (((if (groups.lookup k).isNone then setEntry k [] groups else groups).lookup k).getD []
    ++ [c]) (if (groups.lookup k).isNone then setEntry k [] groups else groups)

/-- The grouping loop on records whose key is read by `key`. -/
def groupFold {α : Type} (key : α → Option String) :
    List α → List (String × List α) → List (String × List α)
  | [], groups => groups
  | c :: rest, groups =>
    match key c with
    | none => groupFold key rest groups
    | some k => groupFold key rest (addToGroup k c groups)

/-- Apply `f` to the values of a mapping. -/
def mapValues {α β : Type} (f : α → β) (m : List (String × α)) : List (String × β) :=
  m.map fun kv => (kv.1, f kv.2)

/-- Apply `f` to the members of every group. -/
def mapGroups {α β : Type} (f : α → β) (groups : List (String × List α)) :
    List (String × List β) :=
  mapValues (List.map f) groups

/-- One step of the data merge of a group on the typed records. -/
def dataStep (m : StrMap) (c : ConfigMap) : StrMap :=
  match subnetId c with
  | some v => m.insert (c.Metadata.Name ++ ".subnet-id") v
  | none => m

/-- One step of the namespace choice of a group on the typed records. -/
def namespaceStep (n : String) (c : ConfigMap) : String :=
  if c.Metadata.Namespace = "" then n else c.Metadata.Namespace


/-- The Starlark value of an input record. -/
def sRecord (c : ConfigMap) : SValue := goToStarlark (encodeConfigMap c)

/-- The entries of the labels of a record (none for the nil map). -/
def labelEntries (md : Metadata) : List (String × String) :=
  match md.Labels with
  | some l => l.entries
  | none => []

/-- A string or `None`. -/
def sOption : Option String → SValue
  | some v => .string v
  | none => .none

/-- The merged record of a group as the loops of the scripts compute it, on the
typed records. -/
def foldMergedRecord (k : String) (group : List ConfigMap) : ConfigMap :=
  ⟨"v1", "ConfigMap", ⟨k, group.foldl namespaceStep "default", some (specMergedLabels k)⟩,
    some (group.foldl dataStep StrMap.empty)⟩

/-- The dict `merged_config_map` of the Starlark script for a group. -/
def sMerged (k : String) (group : List ConfigMap) : SValue :=
  .dict [
    ("apiVersion", .string "v1"),
    ("kind", .string "ConfigMap"),
    ("metadata", .dict [
      ("name", .string k),
      ("namespace", .string (group.foldl namespaceStep "default")),
      ("labels", .dict [("vpc-id", .string k), ("merged", .string "true")])]),
    ("data", .dict (mapValues SValue.string (group.foldl dataStep StrMap.empty).entries))]

/-- The JavaScript value of an input record. -/
def jsRecord (c : ConfigMap) : JSValue := toJS (encodeConfigMap c)

/-- A string or `undefined`. -/
def jsOption : Option String → JSValue
  | some v => .string v
  | none => .undefined

/-- The object `mergedConfigMap` of the TypeScript script for a group. -/
def jsMerged (k : String) (group : List ConfigMap) : JSValue :=
  .object [
    ("apiVersion", .string "v1"),
    ("kind", .string "ConfigMap"),
    ("metadata", .object [
      ("name", .string k),
      ("namespace", .string (group.foldl namespaceStep "default")),
      ("labels", .object [("vpc-id", .string k), ("merged", .string "true")])]),
    ("data", .object (mapValues JSValue.string (group.foldl dataStep StrMap.empty).entries))]

/-- The merged records that `main` prints for the five hardcoded records. -/
def sampleMerged : List ConfigMap := [
  ⟨"v1", "ConfigMap",
    ⟨"vpc-12345", "default", some ⟨[("vpc-id", "vpc-12345"), ("merged", "true")], by decide⟩⟩,
    some ⟨[("subnet-az1a.subnet-id", "subnet-aaa111"), ("subnet-az1c.subnet-id", "subnet-ccc333"),
      ("subnet-az1d.subnet-id", "subnet-ddd444")], by decide⟩⟩,
  ⟨"v1", "ConfigMap",
    ⟨"vpc-67890", "default", some ⟨[("vpc-id", "vpc-67890"), ("merged", "true")], by decide⟩⟩,
    some ⟨[("subnet-vpc2-az1a.subnet-id", "subnet-bbb222"),
      ("subnet-vpc2-az1c.subnet-id", "subnet-eee555")], by decide⟩⟩]

/-- The count the specification names: the input records that share the group
key `k` and have a non-empty `subnet-id` entry. -/
def nonEmptySubnetCount (k : String) (configMaps : List ConfigMap) : Nat :=
  ((groupOf k configMaps).filter fun c =>
    match subnetId c with
    | some v => decide (v ≠ "")
    | none => false).length

/-- The input records that share the group key `k` and have a `subnet-id` entry,
whatever its value. -/
def subnetCount (k : String) (configMaps : List ConfigMap) : Nat :=
  ((groupOf k configMaps).filter fun c => (subnetId c).isSome).length

/-- Two records of one VPC that share a name. -/
def sameNameRecords : List ConfigMap := [
  ⟨"v1", "ConfigMap", ⟨"subnet-a", "default", some ⟨[("vpc-id", "vpc-1")], by decide⟩⟩,
    some ⟨[("subnet-id", "subnet-111")], by decide⟩⟩,
  ⟨"v1", "ConfigMap", ⟨"subnet-a", "default", some ⟨[("vpc-id", "vpc-1")], by decide⟩⟩,
    some ⟨[("subnet-id", "subnet-222")], by decide⟩⟩]

/-- One record whose `subnet-id` entry has the empty string as its value. -/
def emptySubnetRecords : List ConfigMap := [
  ⟨"v1", "ConfigMap", ⟨"subnet-a", "default", some ⟨[("vpc-id", "vpc-1")], by decide⟩⟩,
    some ⟨[("subnet-id", "")], by decide⟩⟩]

/-- Three records of one VPC with distinct names, one of them without a
`subnet-id` entry. -/
def distinctNameRecords : List ConfigMap := [
  ⟨"v1", "ConfigMap", ⟨"subnet-a", "default", some ⟨[("vpc-id", "vpc-1")], by decide⟩⟩,
    some ⟨[("subnet-id", "subnet-111")], by decide⟩⟩,
  ⟨"v1", "ConfigMap", ⟨"subnet-b", "", some ⟨[("vpc-id", "vpc-1")], by decide⟩⟩,
    some ⟨[("cidr-block", "10.0.0.0/24")], by decide⟩⟩,
  ⟨"v1", "ConfigMap", ⟨"subnet-c", "", some ⟨[("vpc-id", "vpc-1")], by decide⟩⟩,
    some ⟨[("subnet-id", "")], by decide⟩⟩]

/-- Two labelled records around one without labels and without data; the second
labelled record has no namespace. -/
def mixedRecords : List ConfigMap := [
  ⟨"v1", "ConfigMap", ⟨"subnet-a", "team-a", some ⟨[("vpc-id", "vpc-1")], by decide⟩⟩,
    some ⟨[("subnet-id", "subnet-111")], by decide⟩⟩,
  ⟨"v1", "ConfigMap", ⟨"stray", "other", none⟩, none⟩,
  ⟨"v1", "ConfigMap", ⟨"subnet-b", "", some ⟨[("vpc-id", "vpc-1"), ("az", "1b")], by decide⟩⟩,
    some ⟨[("subnet-id", "subnet-222")], by decide⟩⟩]

/-- The namespace of a record as the CUE schema sees it: `string` when the JSON
text has no `namespace` member. -/
def cueNamespace (c : ConfigMap) : Cue.Str :=
  if c.Metadata.Namespace = "" then .any else .lit c.Metadata.Namespace

/-- The CUE element of an input record that has a data mapping. -/
def cueRecord (c : ConfigMap) : Cue.Record :=
  ⟨c.Metadata.Name, cueNamespace c, labelEntries c.Metadata,
    match c.Data with
    | some d => d.entries
    | none => []⟩

/-- One more record unified into a field of `vpcGroups`. -/
def cueGroupStep (g : Cue.Group) (c : ConfigMap) : Cue.Group :=
  ⟨g.vpcId.unify (.lit ((vpcLabel c).getD "")), g.nspace.unify (cueNamespace c)⟩

/-- The field of `vpcGroups` that a list of records produces. -/
def cueGroup (group : List ConfigMap) : Cue.Group :=
  group.foldl cueGroupStep ⟨.any, .any⟩

/-- The Go value that `Decode` yields for an element of `mergedConfigMaps` whose
fields are all concrete. -/
def goMerged (k ns : String) (data : List (String × String)) : GoValue :=
  .map [
    ("apiVersion", .string "v1"),
    ("kind", .string "ConfigMap"),
    ("metadata", .map [
      ("name", .string k),
      ("namespace", .string ns),
      ("labels", .map [("vpc-id", .string k), ("merged", .string "true")])]),
    ("data", .map (mapValues GoValue.string data))]

/-- Two records of one VPC in different namespaces. -/
def namespaceConflictRecords : List ConfigMap := [
  ⟨"v1", "ConfigMap", ⟨"subnet-a", "team-a", some ⟨[("vpc-id", "vpc-1")], by decide⟩⟩,
    some ⟨[("subnet-id", "subnet-111")], by decide⟩⟩,
  ⟨"v1", "ConfigMap", ⟨"subnet-b", "team-b", some ⟨[("vpc-id", "vpc-1")], by decide⟩⟩,
    some ⟨[("subnet-id", "subnet-222")], by decide⟩⟩]

/-- One labelled record without a namespace. -/
def noNamespaceRecords : List ConfigMap := [
  ⟨"v1", "ConfigMap", ⟨"subnet-a", "", some ⟨[("vpc-id", "vpc-1")], by decide⟩⟩,
    some ⟨[("subnet-id", "subnet-111")], by decide⟩⟩]

/-- One record whose `vpc-id` label is the empty string. -/
def emptyLabelRecords : List ConfigMap := [
  ⟨"v1", "ConfigMap", ⟨"subnet-a", "default", some ⟨[("vpc-id", "")], by decide⟩⟩,
    some ⟨[("subnet-id", "subnet-111")], by decide⟩⟩]

/-- The namespace that the comment on the namespace step of both scripts
describes ("use the first one"): that of the first record of the group with a
non-empty namespace, `"default"` when there is none. -/
def commentFirstNamespace (group : List ConfigMap) : String :=
  ((group.map fun c => c.Metadata.Namespace).filter fun n => n ≠ "").head?.getD "default"

/-- Two values of a Go `map[string]string` field that hold the same entries,
enumerated in possibly different orders. -/
def sameMap : Option StrMap → Option StrMap → Prop
  | none, none => True
  | some a, some b => a.entries.Perm b.entries
  | _, _ => False

/-- Two records that are equal as Go values: the same fields, with the labels and
the data enumerated in possibly different orders. -/
def sameRecord (a b : ConfigMap) : Prop :=
  a.APIVersion = b.APIVersion ∧ a.Kind = b.Kind
    ∧ a.Metadata.Name = b.Metadata.Name ∧ a.Metadata.Namespace = b.Metadata.Namespace
    ∧ sameMap a.Metadata.Labels b.Metadata.Labels ∧ sameMap a.Data b.Data

/-- What the grouping reads of a record: group key, name, namespace, `subnet-id`
entry and whether there is a data mapping. -/
def sameView (a b : ConfigMap) : Prop :=
  groupKey a = groupKey b ∧ a.Metadata.Name = b.Metadata.Name
    ∧ a.Metadata.Namespace = b.Metadata.Namespace ∧ subnetId a = subnetId b
    ∧ (a.Data = none ↔ b.Data = none)

/-- Two of the records of `main`, with the labels and data listed in one
order. -/
def orderedRecords : List ConfigMap := [
  ⟨"v1", "ConfigMap",
    ⟨"subnet-az1a", "default", some ⟨[("vpc-id", "vpc-12345"), ("az", "ap-northeast-1a")], by decide⟩⟩,
    some ⟨[("subnet-id", "subnet-aaa111"), ("cidr-block", "10.0.1.0/24")], by decide⟩⟩,
  ⟨"v1", "ConfigMap",
    ⟨"subnet-az1c", "default", some ⟨[("vpc-id", "vpc-12345"), ("az", "ap-northeast-1c")], by decide⟩⟩,
    some ⟨[("subnet-id", "subnet-ccc333"), ("cidr-block", "10.0.3.0/24")], by decide⟩⟩]

/-- The records of `orderedRecords` with the labels and data listed in another
order. -/
def reorderedRecords : List ConfigMap := [
  ⟨"v1", "ConfigMap",
    ⟨"subnet-az1a", "default", some ⟨[("az", "ap-northeast-1a"), ("vpc-id", "vpc-12345")], by decide⟩⟩,
    some ⟨[("cidr-block", "10.0.1.0/24"), ("subnet-id", "subnet-aaa111")], by decide⟩⟩,
  ⟨"v1", "ConfigMap",
    ⟨"subnet-az1c", "default", some ⟨[("vpc-id", "vpc-12345"), ("az", "ap-northeast-1c")], by decide⟩⟩,
    some ⟨[("cidr-block", "10.0.3.0/24"), ("subnet-id", "subnet-ccc333")], by decide⟩⟩]

mutual
/-- Whether a Go value is built only from nil, bool, float64, string,
`[]interface{}` and `map[string]interface{}`, the shapes that `json.Unmarshal`
yields; a map holds each key once. -/
def jsonShaped : GoValue → Bool
  | .nil => true
  | .bool _ => true
  | .int _ => false
  | .int64 _ => false
  | .float64 _ => true
  | .string _ => true
  | .slice elems => jsonShapedElems elems
  | .map entries => decide (keysOf entries).Nodup && jsonShapedEntries entries
/-- Whether the elements of a slice are of these shapes. -/
def jsonShapedElems : List GoValue → Bool
  | [] => true
  | elem :: rest => jsonShaped elem && jsonShapedElems rest
/-- Whether the values of a map are of these shapes. -/
def jsonShapedEntries : List (String × GoValue) → Bool
  | [] => true
  | (_, val) :: rest => jsonShaped val && jsonShapedEntries rest
end

/-- A value of every shape that `json.Unmarshal` yields. -/
def sampleJSONValue : GoValue :=
  .map [
    ("items", .slice [.nil, .bool true, .float64 ⟨4611686018427387904⟩, .string "subnet-aaa111"]),
    ("metadata", .map [("name", .string "subnet-az1a"), ("labels", .map [])]),
    ("data", .nil)]

/-! ## The error excerpt of `mapErrorToTypeScript` (`src/typescript/main.go`) -/

namespace TypeScript

/-- The value a Go `int` holds after an addition or subtraction whose exact
result is `x`: 64-bit two's complement wrap-around. -/
def wrapInt (x : Int) : Int :=
  (x + 9223372036854775808) % 18446744073709551616 - 9223372036854775808

/-- The Go function `max`. -/
def max (a b : Int) : Int :=
  if a > b then a else b

/-- The Go function `min`. -/
def min (a b : Int) : Int :=
  if a < b then a else b

/-- The verb `%4d`: the decimal text of a number, padded with spaces on the left
to four characters. -/
def pad4 (n : Int) : String :=
  String.mk (List.replicate (4 - (toString n).length) ' ') ++ toString n

/-- The call `fmt.Sprintf("%s%4d | %s", marker, lineNum, text)`. -/
def formatLine (marker : String) (lineNum : Int) (text : String) : String :=
  marker ++ pad4 lineNum ++ " | " ++ text

/-- The call `strings.Repeat(" ", count)`, which panics on a negative count. -/
def repeatSpaces (count : Int) : Except String String :=
  if count < 0 then .error "strings: negative Repeat count"
  else .ok (String.mk (List.replicate count.toNat ' '))

/-- The index expression `lines[i]`, which panics outside `0 <= i < len(lines)`. -/
def indexLine (lines : List String) (i : Int) : Except String String :=
  match (if 0 ≤ i then lines[i.toNat]? else none) with
  | some text => .ok text
  | none => .error "runtime error: index out of range"

/-- The loop `for i := start; i < end; i++` of `mapErrorToTypeScript`, lines
367-378, from the index `i` on, with the slice `contextLines` built so far.  The
first argument bounds the number of rounds; `i + 1` stays below `len(lines)`, so
it does not wrap. -/
def contextLoop (lines : List String) (line col stop : Int) :
    Nat → Int → List String → Except String (List String)
  | 0, i, contextLines => if i < stop then .error "out of fuel" else .ok contextLines
  | fuel + 1, i, contextLines =>
    if i < stop then
      match indexLine lines i with
      | .error e => .error e
      | .ok text =>
        if i + 1 = line then
          match repeatSpaces (wrapInt (col + 8)) with
          | .error e => .error e
          | .ok spaces =>
            contextLoop lines line col stop fuel (i + 1)
              (contextLines ++ [formatLine "→ " (i + 1) text] ++ [spaces ++ "^"])
        else
          contextLoop lines line col stop fuel (i + 1)
            (contextLines ++ [formatLine "  " (i + 1) text])
    else .ok contextLines

/-- Lines 361-378 of `mapErrorToTypeScript`: the excerpt `contextLines` for the
source lines `lines` (the result of `strings.Split(tsCode, "\n")`) and the
position `line`, `col` that the source map gave.  The loop makes at most
`len(lines)` rounds. -/
def contextLines (lines : List String) (line col : Int) : Except String (List String) :=
  contextLoop lines line col (min lines.length (wrapInt (line + 2))) lines.length
    (max 0 (wrapInt (line - 3))) []

end TypeScript

/-- The integers from `lo` to `hi`, in order; none when `hi < lo`. -/
def lineNumbers (lo hi : Int) : List Int :=
  (List.range (hi + 1 - lo).toNat).map fun (j : Nat) => lo + (j : Int)

/-- What the excerpt shows for the source line numbered `num`: the line with its
number, marked with the arrow and followed by the caret line when it is the line
of the error. -/
def specContextEntry (lines : List String) (line col num : Int) : List String :=
  if num = line then
    [TypeScript.formatLine "→ " num (lines.getD (num - 1).toNat ""),
      String.mk (List.replicate (col + 8).toNat ' ') ++ "^"]
  else
    [TypeScript.formatLine "  " num (lines.getD (num - 1).toNat "")]

/-- The excerpt for the source lines numbered `lo` to `hi`. -/
def specContext (lines : List String) (line col lo hi : Int) : List String :=
  (lineNumbers lo hi).flatMap (specContextEntry lines line col)

/-- A source text of six lines. -/
def sampleSource : List String :=
  ["const a = 1;", "const b = 2;", "function f() \x7b", "  return a.b.c;", "\x7d", "f();"]

/-! ## Insertion-ordered mappings -/

theorem lookup_cons_ite {α : Type} (k0 q : String) (v0 : α) (m : List (String × α)) :
    ((k0, v0) :: m).lookup q = if q = k0 then some v0 else m.lookup q := by
  by_cases h : q = k0
  · subst h; simp [List.lookup]
  · have : (q == k0) = false := by simpa using h
    simp [List.lookup, this, h]

theorem lookup_setEntry {α : Type} (k q : String) (v : α) (m : List (String × α)) :
    (setEntry k v m).lookup q = if q = k then some v else m.lookup q := by
  induction m with
  | nil => simp [setEntry, lookup_cons_ite]
  | cons hd tl ih =>
    obtain ⟨k0, v0⟩ := hd
    by_cases h : k0 = k
    · subst h
      by_cases hq : q = k0 <;> simp [setEntry, lookup_cons_ite, hq]
    · by_cases hq : q = k
      · subst hq
        have : ¬ q = k0 := fun e => h e.symm
        simp [setEntry, h, lookup_cons_ite, ih, this]
      · simp [setEntry, h, lookup_cons_ite, ih, hq]

theorem keysOf_setEntry {α : Type} (k : String) (v : α) (m : List (String × α)) :
    keysOf (setEntry k v m) = if k ∈ keysOf m then keysOf m else keysOf m ++ [k] := by
  induction m with
  | nil => simp [setEntry, keysOf]
  | cons hd tl ih =>
    obtain ⟨k0, v0⟩ := hd
    unfold keysOf at ih ⊢
    by_cases h : k0 = k
    · subst h
      simp [setEntry]
    · have h2 : ¬ k = k0 := fun e => h e.symm
      simp only [setEntry, h, if_false, List.map_cons, List.mem_cons, h2, false_or, ih]
      split <;> simp

theorem nodup_keysOf_setEntry {α : Type} (k : String) (v : α) (m : List (String × α))
    (h : (keysOf m).Nodup) : (keysOf (setEntry k v m)).Nodup := by
  rw [keysOf_setEntry]
  split
  · exact h
  · rename_i hk
    exact List.Nodup.append h (List.nodup_singleton k) (by simpa using hk)

theorem setEntry_of_not_mem {α : Type} (k : String) (v : α) (m : List (String × α))
    (h : k ∉ keysOf m) : setEntry k v m = m ++ [(k, v)] := by
  induction m with
  | nil => rfl
  | cons hd tl ih =>
    obtain ⟨k0, v0⟩ := hd
    simp only [keysOf, List.map_cons, List.mem_cons, not_or] at h
    have h1 : ¬ k0 = k := fun e => h.1 e.symm
    simp [setEntry, h1, ih h.2]

theorem lookup_eq_none_of_not_mem {α : Type} (q : String) (m : List (String × α))
    (h : q ∉ keysOf m) : m.lookup q = none := by
  induction m with
  | nil => rfl
  | cons hd tl ih =>
    obtain ⟨k0, v0⟩ := hd
    simp only [keysOf, List.map_cons, List.mem_cons, not_or] at h
    rw [lookup_cons_ite, if_neg h.1]
    exact ih h.2

theorem lookup_isSome_of_mem {α : Type} (q : String) (m : List (String × α))
    (h : q ∈ keysOf m) : (m.lookup q).isSome = true := by
  induction m with
  | nil => simp [keysOf] at h
  | cons hd tl ih =>
    obtain ⟨k0, v0⟩ := hd
    rw [lookup_cons_ite]
    by_cases hq : q = k0
    · simp [hq]
    · simp only [keysOf, List.map_cons, List.mem_cons, hq, false_or] at h
      simpa [hq] using ih h

theorem keysOf_mapValues {α β : Type} (f : α → β) (m : List (String × α)) :
    keysOf (mapValues f m) = keysOf m := by
  simp [keysOf, mapValues, Function.comp_def]

theorem lookup_mapValues {α β : Type} (f : α → β) (q : String) (m : List (String × α)) :
    (mapValues f m).lookup q = (m.lookup q).map f := by
  induction m with
  | nil => rfl
  | cons hd tl ih =>
    obtain ⟨k0, v0⟩ := hd
    have : mapValues f ((k0, v0) :: tl) = (k0, f v0) :: mapValues f tl := rfl
    rw [this, lookup_cons_ite, lookup_cons_ite, ih]
    split <;> rfl

theorem setEntry_mapValues {α β : Type} (f : α → β) (k : String) (v : α)
    (m : List (String × α)) :
    setEntry k (f v) (mapValues f m) = mapValues f (setEntry k v m) := by
  induction m with
  | nil => rfl
  | cons hd tl ih =>
    obtain ⟨k0, v0⟩ := hd
    have e : mapValues f ((k0, v0) :: tl) = (k0, f v0) :: mapValues f tl := rfl
    rw [e]
    by_cases h : k0 = k
    · simp [setEntry, h, mapValues]
    · simp only [setEntry, h, if_false, ih]
      rfl

theorem StrMap.ext_entries {a b : StrMap} (h : a.entries = b.entries) : a = b := by
  cases a; cases b; cases h; rfl

/-! ## First-seen order -/

theorem firstSeen_filter (p : String → Bool) (l : List String) :
    (firstSeen l).filter p = firstSeen (l.filter p) := by
  induction l with
  | nil => rfl
  | cons x xs ih =>
    by_cases hx : p x = true
    · simp only [firstSeen, List.filter_cons, hx, if_true, List.filter_filter]
      rw [← ih, List.filter_filter]
      congr 1
      apply List.filter_congr
      intro y _
      exact Bool.and_comm _ _
    · have hx2 : p x = false := by simpa using hx
      simp only [firstSeen, List.filter_cons, hx2, List.filter_filter]
      simp only [Bool.false_eq_true, if_false]
      rw [← ih]
      apply List.filter_congr
      intro y _
      by_cases hy : p y = true
      · have : y ≠ x := fun e => hx (e ▸ hy)
        simp [hy, this]
      · simp [hy]

theorem firstSeen_append_cons_of_mem (k : String) (A B : List String) (h : k ∈ A) :
    firstSeen (A ++ k :: B) = firstSeen (A ++ B) := by
  induction A with
  | nil => simp at h
  | cons a A ih =>
    simp only [List.cons_append, firstSeen]
    congr 1
    by_cases hk : k ∈ A
    · have := ih hk
      simp only [List.append_eq] at this ⊢
      rw [this]
    · have hka : k = a := by
        rcases List.mem_cons.mp h with h1 | h1
        · exact h1
        · exact absurd h1 hk
      subst hka
      rw [firstSeen_filter, firstSeen_filter]
      congr 1
      simp [List.filter_append, List.filter_cons]

theorem mem_firstSeen (x : String) (l : List String) : x ∈ firstSeen l ↔ x ∈ l := by
  induction l with
  | nil => simp [firstSeen]
  | cons y ys ih =>
    simp only [firstSeen, List.mem_cons, List.mem_filter, ih]
    by_cases h : x = y <;> simp [h]

theorem nodup_firstSeen (l : List String) : (firstSeen l).Nodup := by
  induction l with
  | nil => simp [firstSeen]
  | cons y ys ih =>
    simp only [firstSeen, List.nodup_cons, List.mem_filter]
    refine ⟨?_, ih.filter _⟩
    simp

theorem firstSeen_of_nodup (l : List String) (h : l.Nodup) : firstSeen l = l := by
  induction l with
  | nil => rfl
  | cons y ys ih =>
    rw [List.nodup_cons] at h
    simp only [firstSeen, ih h.2]
    congr 1
    rw [List.filter_eq_self]
    intro a ha
    have : a ≠ y := fun e => h.1 (e ▸ ha)
    simpa using this

/-! ## The grouping loop -/

theorem keysOf_addToGroup {α : Type} (k : String) (c : α) (groups : List (String × List α)) :
    keysOf (addToGroup k c groups)
      = if k ∈ keysOf groups then keysOf groups else keysOf groups ++ [k] := by
  unfold addToGroup
  by_cases h : k ∈ keysOf groups
  · have h1 := lookup_isSome_of_mem k groups h
    have h2 : (groups.lookup k).isNone = false := by
      cases hh : groups.lookup k <;> simp_all
    simp [h2, keysOf_setEntry, h]
  · have h1 := lookup_eq_none_of_not_mem k groups h
    simp [h1, keysOf_setEntry, h]

theorem lookup_addToGroup {α : Type} (k q : String) (c : α) (groups : List (String × List α)) :
    (addToGroup k c groups).lookup q
      = if q = k then some ((groups.lookup k).getD [] ++ [c]) else groups.lookup q := by
  unfold addToGroup
  rw [lookup_setEntry]
  by_cases hq : q = k
  · simp only [hq, if_true]
    cases hh : groups.lookup k with
    | none => simp [lookup_setEntry]
    | some l => simp [hh]
  · simp only [hq, if_false]
    split
    · rw [lookup_setEntry, if_neg hq]
    · rfl

theorem nodup_keysOf_addToGroup {α : Type} (k : String) (c : α)
    (groups : List (String × List α)) (h : (keysOf groups).Nodup) :
    (keysOf (addToGroup k c groups)).Nodup := by
  rw [keysOf_addToGroup]
  split
  · exact h
  · rename_i hk
    exact List.Nodup.append h (List.nodup_singleton k) (by simpa using hk)

theorem eq_map_keysOf {α : Type} [Inhabited α] (d : α) (m : List (String × α))
    (h : (keysOf m).Nodup) :
    m = (keysOf m).map fun k => (k, (m.lookup k).getD d) := by
  induction m with
  | nil => rfl
  | cons hd tl ih =>
    obtain ⟨k0, v0⟩ := hd
    simp only [keysOf, List.map_cons, List.nodup_cons] at h
    simp only [keysOf, List.map_cons, lookup_cons_ite, if_true, Option.getD_some, List.map_map]
    congr 1
    conv_lhs => rw [ih h.2]
    simp only [keysOf, List.map_map]
    apply List.map_congr_left
    intro a ha
    have : a.1 ≠ k0 := by
      intro e
      apply h.1
      rw [← e]
      exact List.mem_map_of_mem Prod.fst ha
    simp [this]

theorem groupFold_eq {α : Type} (key : α → Option String) (cms : List α)
    (groups : List (String × List α)) (h : (keysOf groups).Nodup) :
    groupFold key cms groups
      = (firstSeen (keysOf groups ++ cms.filterMap key)).map fun k =>
          (k, (groups.lookup k).getD [] ++ cms.filter fun c => key c = some k) := by
  induction cms generalizing groups with
  | nil =>
    simp only [groupFold, List.filterMap_nil, List.append_nil, List.filter_nil]
    rw [firstSeen_of_nodup _ h]
    exact eq_map_keysOf [] groups h
  | cons c rest ih =>
    cases hk : key c with
    | none =>
      simp only [groupFold, hk, List.filterMap_cons]
      rw [ih groups h]
      apply List.map_congr_left
      intro q _
      simp [List.filter_cons, hk]
    | some k =>
      simp only [groupFold, hk, List.filterMap_cons]
      rw [ih _ (nodup_keysOf_addToGroup k c groups h)]
      have hkeys : firstSeen (keysOf (addToGroup k c groups) ++ List.filterMap key rest)
          = firstSeen (keysOf groups ++ k :: List.filterMap key rest) := by
        rw [keysOf_addToGroup]
        split
        · rename_i hmem
          rw [firstSeen_append_cons_of_mem k _ _ hmem]
        · simp
      rw [hkeys]
      apply List.map_congr_left
      intro q _
      rw [lookup_addToGroup]
      by_cases hq : q = k
      · subst hq
        simp [List.filter_cons, hk]
      · have : ¬ k = q := fun e => hq e.symm
        simp [hq, List.filter_cons, hk, this]

/-! ## The Starlark view of an input record -/

theorem goToStarlark_nil : goToStarlark .nil = .none := by simp [goToStarlark]

theorem goToStarlark_string (s : String) : goToStarlark (.string s) = .string s := by
  simp [goToStarlark]

theorem goToStarlark_map (v : List (String × GoValue)) :
    goToStarlark (.map v) = .dict (goToStarlarkEntries v []) := by
  simp [goToStarlark]

theorem goToStarlark_slice (v : List GoValue) :
    goToStarlark (.slice v) = .list (goToStarlarkElems v) := by
  simp [goToStarlark]

theorem goToStarlarkEntries_strings (l : List (String × String)) (acc : List (String × SValue))
    (h : (keysOf acc ++ keysOf l).Nodup) :
    goToStarlarkEntries (l.map fun kv => (kv.1, GoValue.string kv.2)) acc
      = acc ++ mapValues SValue.string l := by
  induction l generalizing acc with
  | nil => simp [goToStarlarkEntries, mapValues]
  | cons hd tl ih =>
    obtain ⟨k, v⟩ := hd
    have hk : k ∉ keysOf acc := by
      intro hmem
      have := (List.nodup_append.mp h).2.2
      exact this hmem (by simp [keysOf])
    simp only [List.map_cons, goToStarlarkEntries, goToStarlark_string]
    rw [setEntry_of_not_mem k _ acc hk, ih]
    · simp [mapValues]
    · simpa [keysOf, List.append_assoc] using h

theorem goToStarlark_encodeStrMap (m : StrMap) :
    goToStarlark (encodeStrMap m) = .dict (mapValues SValue.string m.entries) := by
  unfold encodeStrMap
  rw [goToStarlark_map, goToStarlarkEntries_strings _ _ (by simpa [keysOf] using m.nodup)]
  simp

theorem sRecord_metadata (c : ConfigMap) (d : SValue) :
    Starlark.get (sRecord c) "metadata" d = .ok (goToStarlark (encodeMetadata c.Metadata)) := by
  simp [sRecord, encodeConfigMap, goToStarlark_nil, goToStarlark_string, goToStarlark_map, goToStarlarkEntries, setEntry, Starlark.get,
    lookup_cons_ite]

theorem sRecord_index_metadata (c : ConfigMap) :
    Starlark.index (sRecord c) "metadata" = .ok (goToStarlark (encodeMetadata c.Metadata)) := by
  simp [sRecord, encodeConfigMap, goToStarlark_nil, goToStarlark_string, goToStarlark_map, goToStarlarkEntries, setEntry, Starlark.index,
    lookup_cons_ite]

theorem sRecord_data (c : ConfigMap) (d : SValue) :
    Starlark.get (sRecord c) "data" d
      = .ok (match c.Data with
          | some m => .dict (mapValues SValue.string m.entries)
          | none => .none) := by
  cases hd : c.Data with
  | none =>
    simp [sRecord, encodeConfigMap, goToStarlark_nil, goToStarlark_string, goToStarlark_map, goToStarlarkEntries, setEntry, Starlark.get,
      lookup_cons_ite, hd]
  | some m =>
    simp [sRecord, encodeConfigMap, goToStarlark_nil, goToStarlark_string, goToStarlark_map, goToStarlarkEntries, setEntry, Starlark.get,
      lookup_cons_ite, hd, goToStarlark_encodeStrMap]

theorem sMetadata_name (md : Metadata) (d : SValue) :
    Starlark.get (goToStarlark (encodeMetadata md)) "name" d = .ok (.string md.Name) := by
  unfold encodeMetadata
  cases md.Labels with
  | none =>
    by_cases hn : md.Namespace = "" <;>
      simp [goToStarlark_nil, goToStarlark_string, goToStarlark_map, goToStarlarkEntries, setEntry, Starlark.get, lookup_cons_ite, hn]
  | some l =>
    by_cases hn : md.Namespace = "" <;> by_cases hl : l.entries.isEmpty = true <;>
      simp [goToStarlark_nil, goToStarlark_string, goToStarlark_map, goToStarlarkEntries, setEntry, Starlark.get, lookup_cons_ite, hn, hl]

theorem sMetadata_namespace (md : Metadata) :
    Starlark.get (goToStarlark (encodeMetadata md)) "namespace" .none
      = .ok (if md.Namespace = "" then .none else .string md.Namespace) := by
  unfold encodeMetadata
  cases md.Labels with
  | none =>
    by_cases hn : md.Namespace = "" <;>
      simp [goToStarlark_nil, goToStarlark_string, goToStarlark_map, goToStarlarkEntries, setEntry, Starlark.get, lookup_cons_ite, hn]
  | some l =>
    by_cases hn : md.Namespace = "" <;> by_cases hl : l.entries.isEmpty = true <;>
      simp [goToStarlark_nil, goToStarlark_string, goToStarlark_map, goToStarlarkEntries, setEntry, Starlark.get, lookup_cons_ite, hn, hl]

theorem sMetadata_index_namespace (md : Metadata) (h : md.Namespace ≠ "") :
    Starlark.index (goToStarlark (encodeMetadata md)) "namespace" = .ok (.string md.Namespace) := by
  unfold encodeMetadata
  cases md.Labels with
  | none =>
    simp [goToStarlark_nil, goToStarlark_string, goToStarlark_map, goToStarlarkEntries, setEntry, Starlark.index, lookup_cons_ite, h]
  | some l =>
    by_cases hl : l.entries.isEmpty = true <;>
      simp [goToStarlark_nil, goToStarlark_string, goToStarlark_map, goToStarlarkEntries, setEntry, Starlark.index, lookup_cons_ite, h, hl]

theorem sMetadata_labels (md : Metadata) :
    Starlark.get (goToStarlark (encodeMetadata md)) "labels" (.dict [])
      = .ok (.dict (mapValues SValue.string (labelEntries md))) := by
  unfold encodeMetadata labelEntries
  cases md.Labels with
  | none =>
    by_cases hn : md.Namespace = "" <;>
      simp [goToStarlark_nil, goToStarlark_string, goToStarlark_map, goToStarlarkEntries, setEntry, Starlark.get, lookup_cons_ite, hn,
        mapValues]
  | some l =>
    by_cases hn : md.Namespace = "" <;> by_cases hl : l.entries.isEmpty = true <;>
      simp [goToStarlark_nil, goToStarlark_string, goToStarlark_map, goToStarlarkEntries, setEntry, Starlark.get, lookup_cons_ite, hn, hl,
        mapValues, goToStarlark_encodeStrMap]
    all_goals simp_all [List.isEmpty_iff]

theorem addToGroup_mapGroups {α β : Type} (f : α → β) (k : String) (c : α)
    (groups : List (String × List α)) :
    addToGroup k (f c) (mapGroups f groups) = mapGroups f (addToGroup k c groups) := by
  unfold addToGroup mapGroups
  have e0 : setEntry k ([] : List β) (mapValues (List.map f) groups)
      = mapValues (List.map f) (setEntry k [] groups) := by
    rw [← setEntry_mapValues]
    rfl
  cases h : groups.lookup k with
  | none =>
    simp only [lookup_mapValues, h, Option.map_none', Option.isNone_none, if_true, e0,
      lookup_setEntry, Option.map_some', Option.getD_some, List.map_nil, List.nil_append]
    rw [← setEntry_mapValues (List.map f) k [c], ← setEntry_mapValues (List.map f) k []]
    rfl
  | some l =>
    simp only [lookup_mapValues, h, Option.map_some', Option.isNone_some, Bool.false_eq_true,
      if_false, Option.getD_some]
    rw [← setEntry_mapValues]
    simp

theorem lookup_labelEntries (c : ConfigMap) :
    (labelEntries c.Metadata).lookup "vpc-id" = vpcLabel c := by
  unfold labelEntries vpcLabel
  cases c.Metadata.Labels with
  | none => rfl
  | some l => rfl

theorem starlark_read_vpc_id (c : ConfigMap) :
    Starlark.get (.dict (mapValues SValue.string (labelEntries c.Metadata))) "vpc-id" .none
      = .ok (sOption (vpcLabel c)) := by
  simp only [Starlark.get, lookup_mapValues, lookup_labelEntries]
  cases vpcLabel c <;> rfl

theorem starlark_groupLoop_cons (c : ConfigMap) (rest : List SValue)
    (groups : List (String × List SValue)) :
    Starlark.groupLoop (sRecord c :: rest) groups
      = match groupKey c with
        | none => Starlark.groupLoop rest groups
        | some k => Starlark.groupLoop rest (addToGroup k (sRecord c) groups) := by
  rw [Starlark.groupLoop]
  simp only [sRecord_metadata, sMetadata_labels, starlark_read_vpc_id, bind, Except.bind]
  unfold groupKey
  cases hv : vpcLabel c with
  | none => simp [sOption, Starlark.truth]
  | some v =>
    by_cases he : v = ""
    · simp [sOption, Starlark.truth, he, Option.filter]
    · simp [sOption, Starlark.truth, he, Option.filter, addToGroup]

theorem starlark_groupLoop_eq (cms : List ConfigMap) (groups : List (String × List ConfigMap)) :
    Starlark.groupLoop (cms.map sRecord) (mapGroups sRecord groups)
      = .ok (mapGroups sRecord (groupFold groupKey cms groups)) := by
  induction cms generalizing groups with
  | nil => simp [Starlark.groupLoop, groupFold]
  | cons c rest ih =>
    rw [List.map_cons, starlark_groupLoop_cons]
    cases hk : groupKey c with
    | none => simp only [groupFold, hk]; exact ih groups
    | some k =>
      simp only [groupFold, hk]
      rw [addToGroup_mapGroups]
      exact ih _

theorem dotted_key (name : String) : name ++ "." ++ "subnet-id" = name ++ ".subnet-id" := by
  rw [String.append_assoc]
  rfl

theorem starlark_dataLoop_no_subnet (name : String) (es : List (String × String))
    (md : List (String × SValue)) (h : "subnet-id" ∉ keysOf es) :
    Starlark.dataLoop (.string name) (mapValues SValue.string es) md = .ok md := by
  induction es with
  | nil => simp [mapValues, Starlark.dataLoop]
  | cons hd tl ih =>
    obtain ⟨k, v⟩ := hd
    simp only [keysOf, List.map_cons, List.mem_cons, not_or] at h
    have hk : ¬ k = "subnet-id" := fun e => h.1 e.symm
    have e : mapValues SValue.string ((k, v) :: tl) = (k, SValue.string v) :: mapValues SValue.string tl := rfl
    rw [e, Starlark.dataLoop, if_neg hk]
    exact ih h.2

theorem starlark_dataLoop_eq (name : String) (es : List (String × String))
    (md : List (String × SValue)) (h : (keysOf es).Nodup) :
    Starlark.dataLoop (.string name) (mapValues SValue.string es) md
      = .ok (match es.lookup "subnet-id" with
          | some v => setEntry (name ++ ".subnet-id") (.string v) md
          | none => md) := by
  induction es with
  | nil => simp [mapValues, Starlark.dataLoop]
  | cons hd tl ih =>
    obtain ⟨k, v⟩ := hd
    simp only [keysOf, List.map_cons, List.nodup_cons] at h
    have e : mapValues SValue.string ((k, v) :: tl) = (k, SValue.string v) :: mapValues SValue.string tl := rfl
    rw [e, Starlark.dataLoop, lookup_cons_ite]
    by_cases hk : k = "subnet-id"
    · subst hk
      simp only [if_true, Starlark.addString, bind, Except.bind, dotted_key]
      exact starlark_dataLoop_no_subnet name tl _ h.1
    · have hk2 : ¬ "subnet-id" = k := fun e => hk e.symm
      rw [if_neg hk, if_neg hk2]
      exact ih h.2

theorem starlark_recordLoop_cons (c : ConfigMap) (rest : List SValue) (m : StrMap) (n : String) :
    Starlark.recordLoop (sRecord c :: rest) (mapValues SValue.string m.entries, .string n)
      = match c.Data with
        | none => .error "value has no .items field or method"
        | some _ => Starlark.recordLoop rest
            (mapValues SValue.string (dataStep m c).entries, .string (namespaceStep n c)) := by
  rw [Starlark.recordLoop]
  have hdata : ∀ d : StrMap, c.Data = some d →
      Starlark.dataLoop (.string c.Metadata.Name) (mapValues SValue.string d.entries)
          (mapValues SValue.string m.entries)
        = .ok (mapValues SValue.string (dataStep m c).entries) := by
    intro d hd
    rw [starlark_dataLoop_eq _ _ _ (show (keysOf d.entries).Nodup from d.nodup)]
    congr 1
    unfold dataStep subnetId
    simp only [hd, Option.bind, StrMap.get?]
    cases d.entries.lookup "subnet-id" with
    | none => rfl
    | some v => simp only [StrMap.insert]; exact setEntry_mapValues _ _ _ _
  by_cases hn : c.Metadata.Namespace = ""
  · cases hd : c.Data with
    | none =>
      simp [sRecord_metadata, sMetadata_namespace, sMetadata_name, sRecord_data,
        bind, Except.bind, pure, Except.pure, hn, Starlark.truth, hd, Starlark.items]
    | some d =>
      simp [sRecord_metadata, sMetadata_namespace, sMetadata_name, sRecord_data,
        bind, Except.bind, pure, Except.pure, hn, Starlark.truth, hd, Starlark.items,
        hdata d hd, namespaceStep]
  · cases hd : c.Data with
    | none =>
      simp [sRecord_metadata, sMetadata_namespace, sMetadata_name, sRecord_data,
        sRecord_index_metadata, sMetadata_index_namespace,
        bind, Except.bind, pure, Except.pure, hn, Starlark.truth, hd, Starlark.items]
    | some d =>
      simp [sRecord_metadata, sMetadata_namespace, sMetadata_name, sRecord_data,
        sRecord_index_metadata, sMetadata_index_namespace,
        bind, Except.bind, pure, Except.pure, hn, Starlark.truth, hd, Starlark.items,
        hdata d hd, namespaceStep]

theorem starlark_recordLoop_ok (group : List ConfigMap) (m : StrMap) (n : String)
    (h : ∀ c ∈ group, c.Data ≠ none) :
    Starlark.recordLoop (group.map sRecord) (mapValues SValue.string m.entries, .string n)
      = .ok (mapValues SValue.string (group.foldl dataStep m).entries,
          .string (group.foldl namespaceStep n)) := by
  induction group generalizing m n with
  | nil => simp [Starlark.recordLoop]
  | cons c rest ih =>
    rw [List.map_cons, starlark_recordLoop_cons]
    cases hd : c.Data with
    | none => exact absurd hd (h c (List.mem_cons_self _ _))
    | some d =>
      simp only [List.foldl_cons]
      exact ih _ _ (fun x hx => h x (List.mem_cons_of_mem _ hx))

theorem starlark_recordLoop_error (group : List ConfigMap) (m : StrMap) (n : String)
    (h : ∃ c ∈ group, c.Data = none) :
    ∃ e, Starlark.recordLoop (group.map sRecord) (mapValues SValue.string m.entries, .string n)
      = .error e := by
  induction group generalizing m n with
  | nil => simp at h
  | cons c rest ih =>
    rw [List.map_cons, starlark_recordLoop_cons]
    cases hd : c.Data with
    | none => exact ⟨_, rfl⟩
    | some d =>
      obtain ⟨x, hx, hxd⟩ := h
      rcases List.mem_cons.mp hx with h1 | h1
      · subst h1; rw [hd] at hxd; cases hxd
      · exact ih _ _ ⟨x, h1, hxd⟩

/-! ## The merge loop and the way back to Go -/

theorem starlark_mergeLoop_ok (groups : List (String × List ConfigMap)) (acc : List SValue)
    (h : ∀ g ∈ groups, ∀ c ∈ g.2, c.Data ≠ none) :
    Starlark.mergeLoop (mapGroups sRecord groups) acc
      = .ok (acc ++ groups.map fun g => sMerged g.1 g.2) := by
  induction groups generalizing acc with
  | nil => simp [mapGroups, mapValues, Starlark.mergeLoop]
  | cons g rest ih =>
    obtain ⟨k, grp⟩ := g
    have e : mapGroups sRecord ((k, grp) :: rest) = (k, grp.map sRecord) :: mapGroups sRecord rest := rfl
    have hrec := starlark_recordLoop_ok grp StrMap.empty "default"
      (h (k, grp) (List.mem_cons_self _ _))
    have hrec2 : Starlark.recordLoop (grp.map sRecord) ([], SValue.string "default")
        = .ok (mapValues SValue.string (grp.foldl dataStep StrMap.empty).entries,
          .string (grp.foldl namespaceStep "default")) := hrec
    rw [e, Starlark.mergeLoop]
    simp only [hrec2, bind, Except.bind]
    rw [ih _ (fun g hg => h g (List.mem_cons_of_mem _ hg))]
    simp [sMerged]

theorem starlark_mergeLoop_error (groups : List (String × List ConfigMap)) (acc : List SValue)
    (h : ∃ g ∈ groups, ∃ c ∈ g.2, c.Data = none) :
    ∃ e, Starlark.mergeLoop (mapGroups sRecord groups) acc = .error e := by
  induction groups generalizing acc with
  | nil => simp at h
  | cons g rest ih =>
    obtain ⟨k, grp⟩ := g
    have e : mapGroups sRecord ((k, grp) :: rest) = (k, grp.map sRecord) :: mapGroups sRecord rest := rfl
    rw [e, Starlark.mergeLoop]
    by_cases hg : ∃ c ∈ grp, c.Data = none
    · obtain ⟨msg, hmsg⟩ := starlark_recordLoop_error grp StrMap.empty "default" hg
      have hmsg2 : Starlark.recordLoop (grp.map sRecord) ([], SValue.string "default")
          = .error msg := hmsg
      exact ⟨msg, by simp only [hmsg2, bind, Except.bind]⟩
    · have hall : ∀ c ∈ grp, c.Data ≠ none := fun c hc hd => hg ⟨c, hc, hd⟩
      have hrec : Starlark.recordLoop (grp.map sRecord) ([], SValue.string "default")
          = .ok (mapValues SValue.string (grp.foldl dataStep StrMap.empty).entries,
            .string (grp.foldl namespaceStep "default")) :=
        starlark_recordLoop_ok grp StrMap.empty "default" hall
      simp only [hrec, bind, Except.bind]
      apply ih
      obtain ⟨g, hgm, c, hc, hd⟩ := h
      rcases List.mem_cons.mp hgm with h1 | h1
      · subst h1; exact absurd ⟨c, hc, hd⟩ hg
      · exact ⟨g, h1, c, hc, hd⟩

theorem decodeStrMapEntries_strings (l : List (String × String)) (acc : StrMap)
    (h : (keysOf acc.entries ++ keysOf l).Nodup) :
    ∃ r, decodeStrMapEntries (mapValues GoValue.string l) acc = .ok r
      ∧ r.entries = acc.entries ++ l := by
  induction l generalizing acc with
  | nil => exact ⟨acc, by simp [mapValues, decodeStrMapEntries], by simp⟩
  | cons hd tl ih =>
    obtain ⟨k, v⟩ := hd
    have hk : k ∉ keysOf acc.entries := by
      intro hmem
      have := (List.nodup_append.mp h).2.2
      exact this hmem (by simp [keysOf])
    have e : mapValues GoValue.string ((k, v) :: tl) = (k, GoValue.string v) :: mapValues GoValue.string tl := rfl
    have hins : (acc.insert k v).entries = acc.entries ++ [(k, v)] := by
      simp only [StrMap.insert]
      exact setEntry_of_not_mem k v acc.entries hk
    obtain ⟨r, hr, hre⟩ := ih (acc.insert k v) (by
      rw [hins]
      simpa [keysOf, List.append_assoc] using h)
    refine ⟨r, ?_, ?_⟩
    · rw [e, decodeStrMapEntries]
      simp only [decodeString]
      exact hr
    · rw [hre, hins]
      simp

theorem decodeStrMap_strings (m : StrMap) :
    decodeStrMap (some (.map (mapValues GoValue.string m.entries))) = .ok (some m) := by
  obtain ⟨r, hr, hre⟩ := decodeStrMapEntries_strings m.entries StrMap.empty
    (by simpa [StrMap.empty, keysOf] using m.nodup)
  have : r = m := StrMap.ext_entries (by simpa [StrMap.empty] using hre)
  subst this
  simp only [decodeStrMap, hr]

theorem starlarkToGoItems_strings (l : List (String × String)) (acc : List (String × GoValue))
    (h : (keysOf acc ++ keysOf l).Nodup) :
    starlarkToGoItems (mapValues SValue.string l) acc = acc ++ mapValues GoValue.string l := by
  induction l generalizing acc with
  | nil => simp [starlarkToGoItems, mapValues]
  | cons hd tl ih =>
    obtain ⟨k, v⟩ := hd
    have hk : k ∉ keysOf acc := by
      intro hmem
      have := (List.nodup_append.mp h).2.2
      exact this hmem (by simp [keysOf])
    have e : mapValues SValue.string ((k, v) :: tl) = (k, SValue.string v) :: mapValues SValue.string tl := rfl
    have e2 : starlarkToGo (SValue.string v) = GoValue.string v := by simp [starlarkToGo]
    rw [e, starlarkToGoItems, e2, setEntry_of_not_mem k _ acc hk, ih]
    · simp [mapValues]
    · simpa [keysOf, List.append_assoc] using h

theorem starlarkToGo_string (s : String) : starlarkToGo (.string s) = .string s := by
  simp [starlarkToGo]

theorem starlarkToGo_dict (v : List (String × SValue)) :
    starlarkToGo (.dict v) = .map (starlarkToGoItems v []) := by
  simp [starlarkToGo]

theorem starlarkToGo_list (v : List SValue) :
    starlarkToGo (.list v) = .slice (starlarkToGoElems v) := by
  simp [starlarkToGo]

theorem specMergedLabels_entries (k : String) :
    (specMergedLabels k).entries = [("vpc-id", k), ("merged", "true")] := by
  simp [specMergedLabels, StrMap.insert, StrMap.empty, setEntry]

theorem decodeStrMap_labels (k : String) :
    decodeStrMap (some (.map [("vpc-id", .string k), ("merged", .string "true")]))
      = .ok (some (specMergedLabels k)) := by
  have := decodeStrMap_strings (specMergedLabels k)
  rw [specMergedLabels_entries] at this
  exact this

theorem decode_sMerged (k : String) (group : List ConfigMap) :
    decodeConfigMap (starlarkToGo (sMerged k group)) = .ok (foldMergedRecord k group) := by
  have hdata := starlarkToGoItems_strings (group.foldl dataStep StrMap.empty).entries []
    (by simpa [keysOf] using (group.foldl dataStep StrMap.empty).nodup)
  simp only [List.nil_append] at hdata
  simp [sMerged, starlarkToGo_dict, starlarkToGo_string, starlarkToGoItems, setEntry, hdata,
    decodeConfigMap, lookup_cons_ite, decodeString, decodeMetadata, decodeStrMap_strings,
    decodeStrMap_labels, foldMergedRecord]

/-! ## The Starlark program on every input -/

theorem namespace_fold_eq (group : List ConfigMap) (n : String) :
    group.foldl namespaceStep n
      = ((group.map fun c => c.Metadata.Namespace).filter fun x => x ≠ "").getLast?.getD n := by
  induction group generalizing n with
  | nil => rfl
  | cons c rest ih =>
    rw [List.foldl_cons, ih]
    unfold namespaceStep
    by_cases hn : c.Metadata.Namespace = ""
    · simp [hn]
    · simp only [hn, if_false, List.map_cons, List.filter_cons, ne_eq, not_false_eq_true,
        decide_True, if_true]
      cases hl : (List.filter (fun x => decide (x ≠ "")) (List.map (fun c => c.Metadata.Namespace) rest)) with
      | nil => simp
      | cons a l =>
        have hsome : ∃ z, (a :: l).getLast? = some z := by
          cases hz : (a :: l).getLast? with
          | none => simp [List.getLast?_eq_none_iff] at hz
          | some z => exact ⟨z, rfl⟩
        obtain ⟨z, hz⟩ := hsome
        simp [List.getLast?_cons_cons, hz]

theorem foldMergedRecord_eq (k : String) (group : List ConfigMap) :
    foldMergedRecord k group = specMergedRecord k group := by
  unfold foldMergedRecord specMergedRecord specMergedNamespace specMergedData
  rw [namespace_fold_eq]
  rfl

theorem groupFold_groupKey (cms : List ConfigMap) :
    groupFold groupKey cms []
      = (firstSeen (cms.filterMap groupKey)).map fun k => (k, groupOf k cms) := by
  rw [groupFold_eq groupKey cms [] (by simp [keysOf])]
  simp [keysOf, groupOf]

theorem goToStarlarkElems_map (l : List ConfigMap) :
    goToStarlarkElems (l.map encodeConfigMap) = l.map sRecord := by
  induction l with
  | nil => simp [goToStarlarkElems]
  | cons c rest ih => simp [goToStarlarkElems, ih, sRecord]

theorem starlarkToGoElems_map {α : Type} (f : α → SValue) (l : List α) :
    starlarkToGoElems (l.map f) = l.map fun x => starlarkToGo (f x) := by
  induction l with
  | nil => simp [starlarkToGoElems]
  | cons c rest ih => simp [starlarkToGoElems, ih]

theorem decodeElems_map {α : Type} (f : α → GoValue) (g : α → ConfigMap) (l : List α)
    (h : ∀ x ∈ l, decodeConfigMap (f x) = .ok (g x)) :
    decodeElems (l.map f) = .ok (l.map g) := by
  induction l with
  | nil => simp [decodeElems]
  | cons c rest ih =>
    simp only [List.map_cons, decodeElems, h c (List.mem_cons_self _ _),
      ih (fun x hx => h x (List.mem_cons_of_mem _ hx))]

theorem groups_have_data (cms : List ConfigMap) (h : LabelledHaveData cms) :
    ∀ g ∈ groupFold groupKey cms [], ∀ c ∈ g.2, c.Data ≠ none := by
  rw [groupFold_groupKey]
  intro g hg c hc
  obtain ⟨k, _, rfl⟩ := List.mem_map.mp hg
  simp only [groupOf, List.mem_filter, decide_eq_true_eq] at hc
  exact h c hc.1 (by rw [hc.2]; simp)

theorem groups_lack_data (cms : List ConfigMap) (h : ¬ LabelledHaveData cms) :
    ∃ g ∈ groupFold groupKey cms [], ∃ c ∈ g.2, c.Data = none := by
  rw [groupFold_groupKey]
  unfold LabelledHaveData at h
  push_neg at h
  obtain ⟨c, hc, hk, hd⟩ := h
  obtain ⟨k, hk2⟩ := Option.ne_none_iff_exists'.mp hk
  refine ⟨(k, groupOf k cms), ?_, c, ?_, hd⟩
  · apply List.mem_map.mpr
    refine ⟨k, ?_, rfl⟩
    rw [mem_firstSeen]
    exact List.mem_filterMap.mpr ⟨c, hc, hk2⟩
  · simp [groupOf, hc, hk2]

theorem specTransform_eq (cms : List ConfigMap) :
    (groupFold groupKey cms []).map (fun g => foldMergedRecord g.1 g.2) = specTransform cms := by
  rw [groupFold_groupKey]
  simp [specTransform, foldMergedRecord_eq, Function.comp_def]

theorem starlark_script_groups (cms : List ConfigMap) :
    Starlark.groupLoop (cms.map sRecord) []
      = .ok (mapGroups sRecord (groupFold groupKey cms [])) :=
  starlark_groupLoop_eq cms []

theorem processWithStarlark_ok (cms : List ConfigMap) (h : LabelledHaveData cms) :
    processWithStarlark cms = .ok (specTransform cms) := by
  unfold processWithStarlark Starlark.group_by_vpc_and_merge encodeConfigMaps
  simp only [goToStarlark_slice, goToStarlarkElems_map, Starlark.iterate, bind, Except.bind,
    starlark_script_groups, starlark_mergeLoop_ok _ _ (groups_have_data cms h), List.nil_append,
    pure, Except.pure, starlarkToGo_list, starlarkToGoElems_map, decodeConfigMaps]
  rw [decodeElems_map _ (fun g => foldMergedRecord g.1 g.2) _
    (fun g _ => decode_sMerged g.1 g.2)]
  rw [specTransform_eq]

theorem processWithStarlark_error (cms : List ConfigMap) (h : ¬ LabelledHaveData cms) :
    ∃ e, processWithStarlark cms = .error e := by
  obtain ⟨e, he⟩ := starlark_mergeLoop_error _ [] (groups_lack_data cms h)
  refine ⟨e, ?_⟩
  unfold processWithStarlark Starlark.group_by_vpc_and_merge encodeConfigMaps
  simp only [goToStarlark_slice, goToStarlarkElems_map, Starlark.iterate, bind, Except.bind,
    starlark_script_groups, he]

/-! ## The JavaScript view of an input record -/

theorem toJS_nil : toJS .nil = .null := by simp [toJS]

theorem toJS_string (s : String) : toJS (.string s) = .string s := by simp [toJS]

theorem toJS_map (v : List (String × GoValue)) : toJS (.map v) = .object (toJSEntries v) := by
  simp [toJS]

theorem toJS_slice (v : List GoValue) : toJS (.slice v) = .array (toJSElems v) := by
  simp [toJS]

theorem toJSEntries_strings (l : List (String × String)) :
    toJSEntries (l.map fun kv => (kv.1, GoValue.string kv.2)) = mapValues JSValue.string l := by
  induction l with
  | nil => simp [toJSEntries, mapValues]
  | cons hd tl ih =>
    obtain ⟨k, v⟩ := hd
    simp only [List.map_cons, toJSEntries, toJS_string, ih]
    rfl

theorem toJS_encodeStrMap (m : StrMap) :
    toJS (encodeStrMap m) = .object (mapValues JSValue.string m.entries) := by
  unfold encodeStrMap
  rw [toJS_map, toJSEntries_strings]

theorem jsRecord_metadata (c : ConfigMap) :
    TypeScript.getProp (jsRecord c) "metadata" = .ok (toJS (encodeMetadata c.Metadata)) := by
  simp [jsRecord, encodeConfigMap, toJS_map, toJS_string, toJSEntries, TypeScript.getProp,
    lookup_cons_ite]

theorem jsRecord_data (c : ConfigMap) :
    TypeScript.getProp (jsRecord c) "data"
      = .ok (match c.Data with
          | some m => .object (mapValues JSValue.string m.entries)
          | none => .null) := by
  cases hd : c.Data with
  | none =>
    simp [jsRecord, encodeConfigMap, toJS_map, toJS_string, toJS_nil, toJSEntries,
      TypeScript.getProp, lookup_cons_ite, hd]
  | some m =>
    simp [jsRecord, encodeConfigMap, toJS_map, toJS_string, toJSEntries, TypeScript.getProp,
      lookup_cons_ite, hd, toJS_encodeStrMap]

theorem jsMetadata_name (md : Metadata) :
    TypeScript.getProp (toJS (encodeMetadata md)) "name" = .ok (.string md.Name) := by
  unfold encodeMetadata
  cases md.Labels with
  | none =>
    by_cases hn : md.Namespace = "" <;>
      simp [toJS_map, toJS_string, toJSEntries, TypeScript.getProp, lookup_cons_ite, hn]
  | some l =>
    by_cases hn : md.Namespace = "" <;> by_cases hl : l.entries.isEmpty = true <;>
      simp [toJS_map, toJS_string, toJSEntries, TypeScript.getProp, lookup_cons_ite, hn, hl]

theorem jsMetadata_namespace (md : Metadata) :
    TypeScript.getProp (toJS (encodeMetadata md)) "namespace"
      = .ok (if md.Namespace = "" then .undefined else .string md.Namespace) := by
  unfold encodeMetadata
  cases md.Labels with
  | none =>
    by_cases hn : md.Namespace = "" <;>
      simp [toJS_map, toJS_string, toJSEntries, TypeScript.getProp, lookup_cons_ite, hn]
  | some l =>
    by_cases hn : md.Namespace = "" <;> by_cases hl : l.entries.isEmpty = true <;>
      simp [toJS_map, toJS_string, toJSEntries, TypeScript.getProp, lookup_cons_ite, hn, hl]

theorem jsMetadata_labels (md : Metadata) :
    TypeScript.getProp (toJS (encodeMetadata md)) "labels"
      = .ok (if (labelEntries md).isEmpty then .undefined
          else .object (mapValues JSValue.string (labelEntries md))) := by
  unfold encodeMetadata labelEntries
  cases md.Labels with
  | none =>
    by_cases hn : md.Namespace = "" <;>
      simp [toJS_map, toJS_string, toJSEntries, TypeScript.getProp, lookup_cons_ite, hn]
  | some l =>
    by_cases hn : md.Namespace = "" <;> by_cases hl : l.entries.isEmpty = true <;>
      simp [toJS_map, toJS_string, toJSEntries, TypeScript.getProp, lookup_cons_ite, hn, hl,
        toJS_encodeStrMap]

theorem typescript_read_vpcId (c : ConfigMap) :
    TypeScript.optProp (if (labelEntries c.Metadata).isEmpty then JSValue.undefined
        else .object (mapValues JSValue.string (labelEntries c.Metadata))) "vpc-id"
      = .ok (jsOption (vpcLabel c)) := by
  rw [← lookup_labelEntries]
  by_cases he : (labelEntries c.Metadata).isEmpty = true
  · have : labelEntries c.Metadata = [] := by simpa [List.isEmpty_iff] using he
    simp [this, TypeScript.optProp, jsOption]
  · have he2 : (labelEntries c.Metadata).isEmpty = false := by simpa using he
    simp only [he2, Bool.false_eq_true, if_false, TypeScript.optProp, TypeScript.getProp,
      lookup_mapValues]
    cases (labelEntries c.Metadata).lookup "vpc-id" <;> rfl

theorem typescript_groupLoop_cons (c : ConfigMap) (rest : List JSValue)
    (groups : List (String × List JSValue)) :
    TypeScript.groupLoop (jsRecord c :: rest) groups
      = match groupKey c with
        | none => TypeScript.groupLoop rest groups
        | some k => TypeScript.groupLoop rest (addToGroup k (jsRecord c) groups) := by
  rw [TypeScript.groupLoop]
  simp only [jsRecord_metadata, jsMetadata_labels, typescript_read_vpcId, bind, Except.bind]
  unfold groupKey
  cases hv : vpcLabel c with
  | none => simp [jsOption, TypeScript.truthy]
  | some v =>
    by_cases he : v = ""
    · simp [jsOption, TypeScript.truthy, he, Option.filter]
    · simp [jsOption, TypeScript.truthy, he, Option.filter, addToGroup]

theorem typescript_groupLoop_eq (cms : List ConfigMap)
    (groups : List (String × List ConfigMap)) :
    TypeScript.groupLoop (cms.map jsRecord) (mapGroups jsRecord groups)
      = .ok (mapGroups jsRecord (groupFold groupKey cms groups)) := by
  induction cms generalizing groups with
  | nil => simp [TypeScript.groupLoop, groupFold]
  | cons c rest ih =>
    rw [List.map_cons, typescript_groupLoop_cons]
    cases hk : groupKey c with
    | none => simp only [groupFold, hk]; exact ih groups
    | some k =>
      simp only [groupFold, hk]
      rw [addToGroup_mapGroups]
      exact ih _

theorem typescript_dataLoop_no_subnet (c : ConfigMap) (es : List (String × String))
    (md : List (String × JSValue)) (h : "subnet-id" ∉ keysOf es) :
    TypeScript.dataLoop (jsRecord c) (mapValues JSValue.string es) md = .ok md := by
  induction es with
  | nil => simp [mapValues, TypeScript.dataLoop]
  | cons hd tl ih =>
    obtain ⟨k, v⟩ := hd
    simp only [keysOf, List.map_cons, List.mem_cons, not_or] at h
    have hk : ¬ k = "subnet-id" := fun e => h.1 e.symm
    have e : mapValues JSValue.string ((k, v) :: tl) = (k, JSValue.string v) :: mapValues JSValue.string tl := rfl
    rw [e, TypeScript.dataLoop, if_neg hk]
    exact ih h.2

theorem typescript_dataLoop_eq (c : ConfigMap) (es : List (String × String))
    (md : List (String × JSValue)) (h : (keysOf es).Nodup) :
    TypeScript.dataLoop (jsRecord c) (mapValues JSValue.string es) md
      = .ok (match es.lookup "subnet-id" with
          | some v => setEntry (c.Metadata.Name ++ ".subnet-id") (.string v) md
          | none => md) := by
  induction es with
  | nil => simp [mapValues, TypeScript.dataLoop]
  | cons hd tl ih =>
    obtain ⟨k, v⟩ := hd
    simp only [keysOf, List.map_cons, List.nodup_cons] at h
    have e : mapValues JSValue.string ((k, v) :: tl) = (k, JSValue.string v) :: mapValues JSValue.string tl := rfl
    rw [e, TypeScript.dataLoop, lookup_cons_ite]
    by_cases hk : k = "subnet-id"
    · subst hk
      simp only [if_true, jsRecord_metadata, jsMetadata_name, TypeScript.addString, bind,
        Except.bind, dotted_key]
      exact typescript_dataLoop_no_subnet c tl _ h.1
    · have hk2 : ¬ "subnet-id" = k := fun e => hk e.symm
      rw [if_neg hk, if_neg hk2]
      exact ih h.2

theorem typescript_recordLoop_cons (c : ConfigMap) (rest : List JSValue) (m : StrMap)
    (n : String) :
    TypeScript.recordLoop (jsRecord c :: rest) (mapValues JSValue.string m.entries, .string n)
      = match c.Data with
        | none => .error "TypeError: Cannot convert undefined or null to object"
        | some _ => TypeScript.recordLoop rest
            (mapValues JSValue.string (dataStep m c).entries, .string (namespaceStep n c)) := by
  rw [TypeScript.recordLoop]
  have hdata : ∀ d : StrMap, c.Data = some d →
      TypeScript.dataLoop (jsRecord c) (mapValues JSValue.string d.entries)
          (mapValues JSValue.string m.entries)
        = .ok (mapValues JSValue.string (dataStep m c).entries) := by
    intro d hd
    rw [typescript_dataLoop_eq _ _ _ (show (keysOf d.entries).Nodup from d.nodup)]
    congr 1
    unfold dataStep subnetId
    simp only [hd, Option.bind, StrMap.get?]
    cases d.entries.lookup "subnet-id" with
    | none => rfl
    | some v => simp only [StrMap.insert]; exact setEntry_mapValues _ _ _ _
  by_cases hn : c.Metadata.Namespace = ""
  · cases hd : c.Data with
    | none =>
      simp [jsRecord_metadata, jsMetadata_namespace, jsRecord_data,
        bind, Except.bind, pure, Except.pure, hn, TypeScript.truthy, hd, TypeScript.objectEntries]
    | some d =>
      simp [jsRecord_metadata, jsMetadata_namespace, jsRecord_data,
        bind, Except.bind, pure, Except.pure, hn, TypeScript.truthy, hd, TypeScript.objectEntries,
        hdata d hd, namespaceStep]
  · cases hd : c.Data with
    | none =>
      simp [jsRecord_metadata, jsMetadata_namespace, jsRecord_data,
        bind, Except.bind, pure, Except.pure, hn, TypeScript.truthy, hd, TypeScript.objectEntries]
    | some d =>
      simp [jsRecord_metadata, jsMetadata_namespace, jsRecord_data,
        bind, Except.bind, pure, Except.pure, hn, TypeScript.truthy, hd, TypeScript.objectEntries,
        hdata d hd, namespaceStep]

theorem typescript_recordLoop_ok (group : List ConfigMap) (m : StrMap) (n : String)
    (h : ∀ c ∈ group, c.Data ≠ none) :
    TypeScript.recordLoop (group.map jsRecord) (mapValues JSValue.string m.entries, .string n)
      = .ok (mapValues JSValue.string (group.foldl dataStep m).entries,
          .string (group.foldl namespaceStep n)) := by
  induction group generalizing m n with
  | nil => simp [TypeScript.recordLoop]
  | cons c rest ih =>
    rw [List.map_cons, typescript_recordLoop_cons]
    cases hd : c.Data with
    | none => exact absurd hd (h c (List.mem_cons_self _ _))
    | some d =>
      simp only [List.foldl_cons]
      exact ih _ _ (fun x hx => h x (List.mem_cons_of_mem _ hx))

theorem typescript_recordLoop_error (group : List ConfigMap) (m : StrMap) (n : String)
    (h : ∃ c ∈ group, c.Data = none) :
    ∃ e, TypeScript.recordLoop (group.map jsRecord)
      (mapValues JSValue.string m.entries, .string n) = .error e := by
  induction group generalizing m n with
  | nil => simp at h
  | cons c rest ih =>
    rw [List.map_cons, typescript_recordLoop_cons]
    cases hd : c.Data with
    | none => exact ⟨_, rfl⟩
    | some d =>
      obtain ⟨x, hx, hxd⟩ := h
      rcases List.mem_cons.mp hx with h1 | h1
      · subst h1; rw [hd] at hxd; cases hxd
      · exact ih _ _ ⟨x, h1, hxd⟩

theorem typescript_mergeLoop_ok (groups : List (String × List ConfigMap)) (acc : List JSValue)
    (h : ∀ g ∈ groups, ∀ c ∈ g.2, c.Data ≠ none) :
    TypeScript.mergeLoop (mapGroups jsRecord groups) acc
      = .ok (acc ++ groups.map fun g => jsMerged g.1 g.2) := by
  induction groups generalizing acc with
  | nil => simp [mapGroups, mapValues, TypeScript.mergeLoop]
  | cons g rest ih =>
    obtain ⟨k, grp⟩ := g
    have e : mapGroups jsRecord ((k, grp) :: rest) = (k, grp.map jsRecord) :: mapGroups jsRecord rest := rfl
    have hrec : TypeScript.recordLoop (grp.map jsRecord) ([], JSValue.string "default")
        = .ok (mapValues JSValue.string (grp.foldl dataStep StrMap.empty).entries,
          .string (grp.foldl namespaceStep "default")) :=
      typescript_recordLoop_ok grp StrMap.empty "default" (h (k, grp) (List.mem_cons_self _ _))
    rw [e, TypeScript.mergeLoop]
    simp only [hrec, bind, Except.bind]
    rw [ih _ (fun g hg => h g (List.mem_cons_of_mem _ hg))]
    simp [jsMerged]

theorem typescript_mergeLoop_error (groups : List (String × List ConfigMap))
    (acc : List JSValue) (h : ∃ g ∈ groups, ∃ c ∈ g.2, c.Data = none) :
    ∃ e, TypeScript.mergeLoop (mapGroups jsRecord groups) acc = .error e := by
  induction groups generalizing acc with
  | nil => simp at h
  | cons g rest ih =>
    obtain ⟨k, grp⟩ := g
    have e : mapGroups jsRecord ((k, grp) :: rest) = (k, grp.map jsRecord) :: mapGroups jsRecord rest := rfl
    rw [e, TypeScript.mergeLoop]
    by_cases hg : ∃ c ∈ grp, c.Data = none
    · obtain ⟨msg, hmsg⟩ := typescript_recordLoop_error grp StrMap.empty "default" hg
      have hmsg2 : TypeScript.recordLoop (grp.map jsRecord) ([], JSValue.string "default")
          = .error msg := hmsg
      exact ⟨msg, by simp only [hmsg2, bind, Except.bind]⟩
    · have hall : ∀ c ∈ grp, c.Data ≠ none := fun c hc hd => hg ⟨c, hc, hd⟩
      have hrec : TypeScript.recordLoop (grp.map jsRecord) ([], JSValue.string "default")
          = .ok (mapValues JSValue.string (grp.foldl dataStep StrMap.empty).entries,
            .string (grp.foldl namespaceStep "default")) :=
        typescript_recordLoop_ok grp StrMap.empty "default" hall
      simp only [hrec, bind, Except.bind]
      apply ih
      obtain ⟨g, hgm, c, hc, hd⟩ := h
      rcases List.mem_cons.mp hgm with h1 | h1
      · subst h1; exact absurd ⟨c, hc, hd⟩ hg
      · exact ⟨g, h1, c, hc, hd⟩

theorem exportJS_string (s : String) : exportJS (.string s) = .string s := by
  simp [exportJS]

theorem exportJS_object (v : List (String × JSValue)) :
    exportJS (.object v) = .map (exportJSProps v []) := by
  simp [exportJS]

theorem exportJS_array (v : List JSValue) : exportJS (.array v) = .slice (exportJSElems v) := by
  simp [exportJS]

theorem exportJSProps_strings (l : List (String × String)) (acc : List (String × GoValue))
    (h : (keysOf acc ++ keysOf l).Nodup) :
    exportJSProps (mapValues JSValue.string l) acc = acc ++ mapValues GoValue.string l := by
  induction l generalizing acc with
  | nil => simp [exportJSProps, mapValues]
  | cons hd tl ih =>
    obtain ⟨k, v⟩ := hd
    have hk : k ∉ keysOf acc := by
      intro hmem
      have := (List.nodup_append.mp h).2.2
      exact this hmem (by simp [keysOf])
    have e : mapValues JSValue.string ((k, v) :: tl) = (k, JSValue.string v) :: mapValues JSValue.string tl := rfl
    rw [e, exportJSProps, exportJS_string, setEntry_of_not_mem k _ acc hk, ih]
    · simp [mapValues]
    · simpa [keysOf, List.append_assoc] using h

theorem decode_jsMerged (k : String) (group : List ConfigMap) :
    decodeConfigMap (exportJS (jsMerged k group)) = .ok (foldMergedRecord k group) := by
  have hdata := exportJSProps_strings (group.foldl dataStep StrMap.empty).entries []
    (by simpa [keysOf] using (group.foldl dataStep StrMap.empty).nodup)
  simp only [List.nil_append] at hdata
  simp [jsMerged, exportJS_object, exportJS_string, exportJSProps, setEntry, hdata,
    decodeConfigMap, lookup_cons_ite, decodeString, decodeMetadata, decodeStrMap_strings,
    decodeStrMap_labels, foldMergedRecord]

theorem toJSElems_map (l : List ConfigMap) :
    toJSElems (l.map encodeConfigMap) = l.map jsRecord := by
  induction l with
  | nil => simp [toJSElems]
  | cons c rest ih => simp [toJSElems, ih, jsRecord]

theorem exportJSElems_map {α : Type} (f : α → JSValue) (l : List α) :
    exportJSElems (l.map f) = l.map fun x => exportJS (f x) := by
  induction l with
  | nil => simp [exportJSElems]
  | cons c rest ih => simp [exportJSElems, ih]

theorem typescript_script_groups (cms : List ConfigMap) :
    TypeScript.groupLoop (cms.map jsRecord) []
      = .ok (mapGroups jsRecord (groupFold groupKey cms [])) :=
  typescript_groupLoop_eq cms []

theorem processWithTypeScript_ok (cms : List ConfigMap) (h : LabelledHaveData cms) :
    processWithTypeScript cms = .ok (specTransform cms) := by
  unfold processWithTypeScript TypeScript.groupByVpcAndMerge encodeConfigMaps
  simp only [toJS_slice, toJSElems_map, TypeScript.iterate, bind, Except.bind,
    typescript_script_groups, typescript_mergeLoop_ok _ _ (groups_have_data cms h),
    List.nil_append, pure, Except.pure, exportJS_array, exportJSElems_map, decodeConfigMaps]
  rw [decodeElems_map _ (fun g => foldMergedRecord g.1 g.2) _
    (fun g _ => decode_jsMerged g.1 g.2)]
  rw [specTransform_eq]

theorem processWithTypeScript_error (cms : List ConfigMap) (h : ¬ LabelledHaveData cms) :
    ∃ e, processWithTypeScript cms = .error e := by
  obtain ⟨e, he⟩ := typescript_mergeLoop_error _ [] (groups_lack_data cms h)
  refine ⟨e, ?_⟩
  unfold processWithTypeScript TypeScript.groupByVpcAndMerge encodeConfigMaps
  simp only [toJS_slice, toJSElems_map, TypeScript.iterate, bind, Except.bind,
    typescript_script_groups, he]

/-! ## What a returned result is -/

theorem processWithStarlark_returns (cms out : List ConfigMap)
    (h : processWithStarlark cms = .ok out) :
    LabelledHaveData cms ∧ out = specTransform cms := by
  by_cases hd : LabelledHaveData cms
  · rw [processWithStarlark_ok cms hd] at h
    exact ⟨hd, (Except.ok.inj h).symm⟩
  · obtain ⟨e, he⟩ := processWithStarlark_error cms hd
    rw [he] at h
    cases h

theorem processWithTypeScript_returns (cms out : List ConfigMap)
    (h : processWithTypeScript cms = .ok out) :
    LabelledHaveData cms ∧ out = specTransform cms := by
  by_cases hd : LabelledHaveData cms
  · rw [processWithTypeScript_ok cms hd] at h
    exact ⟨hd, (Except.ok.inj h).symm⟩
  · obtain ⟨e, he⟩ := processWithTypeScript_error cms hd
    rw [he] at h
    cases h

theorem returns_spec (cms out : List ConfigMap)
    (h : processWithStarlark cms = .ok out ∨ processWithTypeScript cms = .ok out) :
    LabelledHaveData cms ∧ out = specTransform cms := by
  rcases h with h | h
  · exact processWithStarlark_returns cms out h
  · exact processWithTypeScript_returns cms out h

theorem groupKey_eq_some (c : ConfigMap) (k : String) :
    groupKey c = some k ↔ vpcLabel c = some k ∧ k ≠ "" := by
  unfold groupKey
  cases vpcLabel c with
  | none => simp [Option.filter]
  | some v =>
    by_cases hv : v = ""
    · subst hv
      simp [Option.filter]
      intro h1
      exact h1.symm
    · simp only [Option.filter, ne_eq, hv, not_false_eq_true, decide_True, if_true,
        Option.some.injEq]
      constructor
      · intro h; subst h; exact ⟨rfl, hv⟩
      · intro h; exact h.1

theorem namesOf_specTransform (cms : List ConfigMap) :
    namesOf (specTransform cms) = firstSeen (cms.filterMap groupKey) := by
  simp [namesOf, specTransform, specMergedRecord, Function.comp_def]

theorem mem_specTransform (cms : List ConfigMap) (r : ConfigMap) (h : r ∈ specTransform cms) :
    (∃ c ∈ cms, groupKey c = some r.Metadata.Name)
      ∧ r = specMergedRecord r.Metadata.Name (groupOf r.Metadata.Name cms) := by
  obtain ⟨k, hk, rfl⟩ := List.mem_map.mp h
  rw [mem_firstSeen] at hk
  obtain ⟨c, hc, hck⟩ := List.mem_filterMap.mp hk
  exact ⟨⟨c, hc, hck⟩, rfl⟩

/-! ## The claims -/

/-- C1: whenever the grouping transform (Starlark or TypeScript variant) returns
records for an input sequence, a string is the `metadata.name` of a returned
record exactly when it is a non-empty value of the `vpc-id` label of some input
record. -/
theorem group_keys_eq_labels (cms out : List ConfigMap)
    (h : processWithStarlark cms = .ok out ∨ processWithTypeScript cms = .ok out) (k : String) :
    k ∈ namesOf out ↔ (k ≠ "" ∧ ∃ c ∈ cms, vpcLabel c = some k) := by
  obtain ⟨_, rfl⟩ := returns_spec cms out h
  rw [namesOf_specTransform, mem_firstSeen, List.mem_filterMap]
  constructor
  · rintro ⟨c, hc, hk⟩
    rw [groupKey_eq_some] at hk
    exact ⟨hk.2, c, hc, hk.1⟩
  · rintro ⟨hne, c, hc, hk⟩
    exact ⟨c, hc, (groupKey_eq_some c k).mpr ⟨hk, hne⟩⟩

/-- Witness of C1 on the five records of `main`: the Starlark variant returns
`sampleMerged`, and `vpc-12345` is a name of the output and a label value of the
input. -/
theorem group_keys_eq_labels_witness :
    processWithStarlark sampleConfigMaps = .ok sampleMerged
      ∧ ("vpc-12345" ∈ namesOf sampleMerged
          ↔ ("vpc-12345" ≠ "" ∧ ∃ c ∈ sampleConfigMaps, vpcLabel c = some "vpc-12345")) :=
  ⟨rfl, group_keys_eq_labels sampleConfigMaps sampleMerged (Or.inl rfl) "vpc-12345"⟩

theorem mem_setEntry {α : Type} (k q : String) (v w : α) (m : List (String × α))
    (h : (q, w) ∈ setEntry k v m) : (q, w) = (k, v) ∨ (q, w) ∈ m := by
  induction m with
  | nil => simpa [setEntry] using h
  | cons hd tl ih =>
    obtain ⟨k0, v0⟩ := hd
    by_cases hk : k0 = k
    · simp only [setEntry, hk, if_true, List.mem_cons] at h
      rcases h with h | h
      · exact Or.inl h
      · exact Or.inr (List.mem_cons_of_mem _ h)
    · simp only [setEntry, hk, if_false, List.mem_cons] at h
      rcases h with h | h
      · exact Or.inr (by rw [h]; exact List.mem_cons_self _ _)
      · rcases ih h with h2 | h2
        · exact Or.inl h2
        · exact Or.inr (List.mem_cons_of_mem _ h2)

theorem dataStep_fold_origin (group : List ConfigMap) (m : StrMap) (q v : String)
    (h : (q, v) ∈ (group.foldl dataStep m).entries) :
    (q, v) ∈ m.entries
      ∨ ∃ c ∈ group, q = c.Metadata.Name ++ ".subnet-id" ∧ subnetId c = some v := by
  induction group generalizing m with
  | nil => exact Or.inl h
  | cons c rest ih =>
    rw [List.foldl_cons] at h
    rcases ih _ h with h1 | ⟨x, hx, hq⟩
    · unfold dataStep at h1
      cases hs : subnetId c with
      | none =>
        rw [hs] at h1
        exact Or.inl h1
      | some s =>
        rw [hs] at h1
        rcases mem_setEntry _ _ _ _ _ h1 with h2 | h2
        · right
          refine ⟨c, List.mem_cons_self _ _, ?_, ?_⟩
          · exact (Prod.mk.inj h2).1
          · rw [hs, (Prod.mk.inj h2).2]
        · exact Or.inl h2
    · exact Or.inr ⟨x, List.mem_cons_of_mem _ hx, hq⟩

theorem dataStep_fold_get (group : List ConfigMap) (m : StrMap) (q : String) :
    (group.foldl dataStep m).get? q
      = match (group.filter fun c =>
            decide (c.Metadata.Name ++ ".subnet-id" = q) && (subnetId c).isSome).getLast? with
        | some c => subnetId c
        | none => m.get? q := by
  induction group generalizing m with
  | nil => rfl
  | cons c rest ih =>
    rw [List.foldl_cons, ih, List.filter_cons]
    by_cases hp : (decide (c.Metadata.Name ++ ".subnet-id" = q) && (subnetId c).isSome) = true
    · rw [if_pos hp]
      simp only [Bool.and_eq_true, decide_eq_true_eq] at hp
      obtain ⟨hq, hs⟩ := hp
      obtain ⟨s, hs2⟩ := Option.isSome_iff_exists.mp hs
      cases hl : (rest.filter fun c =>
          decide (c.Metadata.Name ++ ".subnet-id" = q) && (subnetId c).isSome) with
      | nil =>
        simp only [List.getLast?_nil, List.getLast?_singleton]
        simp [dataStep, hs2, StrMap.get?, StrMap.insert, lookup_setEntry, hq]
      | cons a l =>
        have hsome : ∃ z, (a :: l).getLast? = some z := by
          cases hz : (a :: l).getLast? with
          | none => simp [List.getLast?_eq_none_iff] at hz
          | some z => exact ⟨z, rfl⟩
        obtain ⟨z, hz⟩ := hsome
        rw [List.getLast?_cons_cons, hz]
    · rw [if_neg hp]
      have hget : (dataStep m c).get? q = m.get? q := by
        unfold dataStep
        cases hs : subnetId c with
        | none => rfl
        | some s =>
          have hne : ¬ q = c.Metadata.Name ++ ".subnet-id" := by
            intro e
            apply hp
            simp [e, hs]
          simp [StrMap.get?, StrMap.insert, lookup_setEntry, hne]
      rw [hget]

/-- C2: whenever the grouping transform (Starlark or TypeScript variant) returns
records, the data mapping of the record with group key `k` is the mapping got by
visiting, in input order, the input records labelled `vpc-id` = `k` and inserting
(name + ".subnet-id", subnet-id value) for each one that has a `subnet-id` entry,
a later insertion overwriting an earlier one; so a key reads the value of the last
such record with that name, and every entry comes from the `subnet-id` entry of a
record of the group (no other data key yields one). -/
theorem merged_data_eq (cms out : List ConfigMap)
    (h : processWithStarlark cms = .ok out ∨ processWithTypeScript cms = .ok out)
    (r : ConfigMap) (hr : r ∈ out) :
    ∃ d, r.Data = some d
      ∧ d = specMergedData (groupOf r.Metadata.Name cms)
      ∧ (∀ q, d.get? q
          = ((groupOf r.Metadata.Name cms).filter fun c =>
              decide (c.Metadata.Name ++ ".subnet-id" = q) && (subnetId c).isSome).getLast?.bind
              subnetId)
      ∧ (∀ q v, (q, v) ∈ d.entries →
          ∃ c ∈ groupOf r.Metadata.Name cms,
            q = c.Metadata.Name ++ ".subnet-id" ∧ subnetId c = some v) := by
  obtain ⟨_, rfl⟩ := returns_spec cms out h
  obtain ⟨_, hrec⟩ := mem_specTransform cms r hr
  refine ⟨specMergedData (groupOf r.Metadata.Name cms), ?_, rfl, ?_, ?_⟩
  · conv_lhs => rw [hrec]
    rfl
  · intro q
    have := dataStep_fold_get (groupOf r.Metadata.Name cms) StrMap.empty q
    have e : specMergedData (groupOf r.Metadata.Name cms)
        = (groupOf r.Metadata.Name cms).foldl dataStep StrMap.empty := rfl
    rw [e, this]
    cases (List.filter (fun c =>
        decide (c.Metadata.Name ++ ".subnet-id" = q) && (subnetId c).isSome)
        (groupOf r.Metadata.Name cms)).getLast? with
    | none => rfl
    | some c => rfl
  · intro q v hqv
    have e : specMergedData (groupOf r.Metadata.Name cms)
        = (groupOf r.Metadata.Name cms).foldl dataStep StrMap.empty := rfl
    rw [e] at hqv
    rcases dataStep_fold_origin _ _ _ _ hqv with h1 | h1
    · simp [StrMap.empty] at h1
    · exact h1

/-- Witness of C2 on the five records of `main`, at the first returned record. -/
theorem merged_data_eq_witness :
    processWithTypeScript sampleConfigMaps = .ok sampleMerged
      ∧ ∃ d, (sampleMerged.get ⟨0, by decide⟩).Data = some d
        ∧ d = specMergedData (groupOf "vpc-12345" sampleConfigMaps)
        ∧ (∀ q, d.get? q
            = ((groupOf "vpc-12345" sampleConfigMaps).filter fun c =>
                decide (c.Metadata.Name ++ ".subnet-id" = q) && (subnetId c).isSome).getLast?.bind
                subnetId)
        ∧ (∀ q v, (q, v) ∈ d.entries →
            ∃ c ∈ groupOf "vpc-12345" sampleConfigMaps,
              q = c.Metadata.Name ++ ".subnet-id" ∧ subnetId c = some v) :=
  ⟨rfl, merged_data_eq sampleConfigMaps sampleMerged (Or.inr rfl)
    (sampleMerged.get ⟨0, by decide⟩) (List.get_mem _ _ _)⟩

theorem string_append_right_cancel (a b s : String) (h : a ++ s = b ++ s) : a = b := by
  have h2 := congrArg String.data h
  simp only [String.data_append] at h2
  exact String.ext (List.append_cancel_right h2)

theorem dataStep_fold_length (group : List ConfigMap) (m : StrMap)
    (hnames : ((group.filter fun c => (subnetId c).isSome).map fun c => c.Metadata.Name).Nodup)
    (hfresh : ∀ c ∈ group, (subnetId c).isSome →
      c.Metadata.Name ++ ".subnet-id" ∉ keysOf m.entries) :
    (group.foldl dataStep m).entries.length
      = m.entries.length + (group.filter fun c => (subnetId c).isSome).length := by
  induction group generalizing m with
  | nil => simp
  | cons c rest ih =>
    rw [List.foldl_cons]
    cases hs : subnetId c with
    | none =>
      have e : dataStep m c = m := by simp [dataStep, hs]
      rw [e, List.filter_cons]
      simp only [hs, Option.isSome_none, Bool.false_eq_true, if_false]
      apply ih
      · simpa [List.filter_cons, hs] using hnames
      · exact fun x hx => hfresh x (List.mem_cons_of_mem _ hx)
    | some s =>
      have hc := hfresh c (List.mem_cons_self _ _) (by simp [hs])
      have e : (dataStep m c).entries = m.entries ++ [(c.Metadata.Name ++ ".subnet-id", s)] := by
        simp only [dataStep, hs, StrMap.insert]
        exact setEntry_of_not_mem _ _ _ hc
      have hn : c.Metadata.Name ∉ (rest.filter fun c => (subnetId c).isSome).map
            (fun c => c.Metadata.Name)
          ∧ ((rest.filter fun c => (subnetId c).isSome).map fun c => c.Metadata.Name).Nodup := by
        simpa [List.filter_cons, hs] using hnames
      rw [ih (dataStep m c) hn.2, e, List.filter_cons]
      · simp only [hs, Option.isSome_some, if_true, List.length_append, List.length_cons,
          List.length_nil]
        omega
      · intro x hx hxs
        rw [e]
        simp only [keysOf, List.map_append, List.map_cons, List.map_nil, List.mem_append,
          List.mem_singleton, not_or]
        refine ⟨hfresh x (List.mem_cons_of_mem _ hx) hxs, ?_⟩
        intro heq
        have hname := string_append_right_cancel _ _ _ heq
        apply hn.1
        rw [← hname]
        exact List.mem_map.mpr ⟨x, List.mem_filter.mpr ⟨hx, hxs⟩, rfl⟩

/-- C3 fails as stated: on two records of one VPC that share a name the merged
record has one data entry while two input records of the group have a non-empty
`subnet-id` entry; and on a record whose `subnet-id` value is the empty string
the merged record has one data entry while no input record has a non-empty
`subnet-id` entry. -/
theorem data_size_counterexample :
    (∃ out, processWithStarlark sameNameRecords = .ok out
        ∧ processWithTypeScript sameNameRecords = .ok out
        ∧ ∃ r ∈ out, dataSize r = 1 ∧ nonEmptySubnetCount r.Metadata.Name sameNameRecords = 2)
      ∧ (∃ out, processWithStarlark emptySubnetRecords = .ok out
        ∧ processWithTypeScript emptySubnetRecords = .ok out
        ∧ ∃ r ∈ out, dataSize r = 1
          ∧ nonEmptySubnetCount r.Metadata.Name emptySubnetRecords = 0) := by
  refine ⟨⟨_, rfl, rfl, ?_⟩, ⟨_, rfl, rfl, ?_⟩⟩
  · refine ⟨_, List.mem_cons_self _ _, ?_, ?_⟩ <;> decide
  · refine ⟨_, List.mem_cons_self _ _, ?_, ?_⟩ <;> decide

/-- C3 as amended: whenever the grouping transform (Starlark or TypeScript
variant) returns records, and the input records of a group that have a
`subnet-id` entry have pairwise distinct names, the number of data entries of the
merged record of that group equals the number of input records that share its
group key and have a `subnet-id` entry, whether or not the value is empty. -/
theorem data_size_eq_subnet_count (cms out : List ConfigMap)
    (h : processWithStarlark cms = .ok out ∨ processWithTypeScript cms = .ok out)
    (r : ConfigMap) (hr : r ∈ out)
    (hnames : (((groupOf r.Metadata.Name cms).filter fun c => (subnetId c).isSome).map
      fun c => c.Metadata.Name).Nodup) :
    dataSize r = subnetCount r.Metadata.Name cms := by
  obtain ⟨_, rfl⟩ := returns_spec cms out h
  obtain ⟨_, hrec⟩ := mem_specTransform cms r hr
  have hd : dataSize r = (specMergedData (groupOf r.Metadata.Name cms)).entries.length := by
    conv_lhs => rw [hrec]
    rfl
  have e : specMergedData (groupOf r.Metadata.Name cms)
      = (groupOf r.Metadata.Name cms).foldl dataStep StrMap.empty := rfl
  rw [hd, e, dataStep_fold_length _ _ hnames (by simp [StrMap.empty, keysOf])]
  simp [StrMap.empty, subnetCount]

/-- Witness of the amended C3: three records of one VPC with distinct names, two
of them with a `subnet-id` entry (one empty); the merged record has two data
entries. -/
theorem data_size_eq_subnet_count_witness :
    ∃ out, processWithStarlark distinctNameRecords = .ok out
      ∧ ∃ r ∈ out, dataSize r = subnetCount r.Metadata.Name distinctNameRecords
        ∧ subnetCount r.Metadata.Name distinctNameRecords = 2 :=
  ⟨_, rfl, _, List.mem_cons_self _ _,
    data_size_eq_subnet_count distinctNameRecords _ (Or.inl rfl) _ (List.mem_cons_self _ _)
      (by decide), by decide⟩

theorem labelled_filter_have_data (cms : List ConfigMap) (h : LabelledHaveData cms) :
    LabelledHaveData (cms.filter fun c => (groupKey c).isSome) :=
  fun c hc => h c (List.mem_filter.mp hc).1

theorem specTransform_filter (cms : List ConfigMap) :
    specTransform (cms.filter fun c => (groupKey c).isSome) = specTransform cms := by
  have hkeys : (cms.filter fun c => (groupKey c).isSome).filterMap groupKey
      = cms.filterMap groupKey := by
    induction cms with
    | nil => rfl
    | cons c rest ih =>
      cases hk : groupKey c with
      | none => simp [List.filter_cons, List.filterMap_cons, hk, ih]
      | some k => simp [List.filter_cons, List.filterMap_cons, hk, ih]
  have hgroup : ∀ k, groupOf k (cms.filter fun c => (groupKey c).isSome) = groupOf k cms := by
    intro k
    unfold groupOf
    rw [List.filter_filter]
    apply List.filter_congr
    intro c _
    by_cases hk : groupKey c = some k <;> simp [hk]
  unfold specTransform
  rw [hkeys]
  apply List.map_congr_left
  intro k _
  rw [hgroup]

/-- C4: on an input in which every record that carries a non-empty `vpc-id` label
has a data mapping, the grouping transform (Starlark and TypeScript variant)
returns a result and raises no error, and the result is the one it returns on the
input without the records whose `vpc-id` label is absent or empty. -/
theorem unlabelled_records_skipped (cms : List ConfigMap)
    (h : ∀ c ∈ cms, groupKey c ≠ none → c.Data ≠ none) :
    ∃ out, processWithStarlark cms = .ok out
      ∧ processWithTypeScript cms = .ok out
      ∧ processWithStarlark (cms.filter fun c => (groupKey c).isSome) = .ok out
      ∧ processWithTypeScript (cms.filter fun c => (groupKey c).isSome) = .ok out := by
  have h2 := labelled_filter_have_data cms h
  refine ⟨specTransform cms, processWithStarlark_ok cms h, processWithTypeScript_ok cms h, ?_, ?_⟩
  · rw [processWithStarlark_ok _ h2, specTransform_filter]
  · rw [processWithTypeScript_ok _ h2, specTransform_filter]

/-- Witness of C4: two labelled records around a record with no labels and no
data mapping. -/
theorem unlabelled_records_skipped_witness :
    (∀ c ∈ mixedRecords, groupKey c ≠ none → c.Data ≠ none)
      ∧ ∃ out, processWithStarlark mixedRecords = .ok out
        ∧ processWithTypeScript mixedRecords = .ok out
        ∧ processWithStarlark (mixedRecords.filter fun c => (groupKey c).isSome) = .ok out
        ∧ processWithTypeScript (mixedRecords.filter fun c => (groupKey c).isSome) = .ok out :=
  ⟨by decide, unlabelled_records_skipped mixedRecords (by decide)⟩

/-- C5: whenever the grouping transform (Starlark or TypeScript variant) returns
records, the namespace of the record with group key `k` is the namespace of the
last input record labelled `vpc-id` = `k` that has a non-empty namespace, and
`"default"` when no record of the group has one. -/
theorem merged_namespace_last_wins (cms out : List ConfigMap)
    (h : processWithStarlark cms = .ok out ∨ processWithTypeScript cms = .ok out)
    (r : ConfigMap) (hr : r ∈ out) :
    r.Metadata.Namespace
      = ((((groupOf r.Metadata.Name cms).map fun c => c.Metadata.Namespace).filter
          fun n => n ≠ "").getLast?).getD "default" := by
  obtain ⟨_, rfl⟩ := returns_spec cms out h
  obtain ⟨_, hrec⟩ := mem_specTransform cms r hr
  conv_lhs => rw [hrec]
  rfl

/-- Witness of C5: the group of `mixedRecords` has the namespaces `team-a` and
none; the merged record is in `team-a`. -/
theorem merged_namespace_last_wins_witness :
    ∃ out, processWithStarlark mixedRecords = .ok out
      ∧ ∃ r ∈ out, r.Metadata.Namespace
          = ((((groupOf r.Metadata.Name mixedRecords).map fun c => c.Metadata.Namespace).filter
              fun n => n ≠ "").getLast?).getD "default"
        ∧ r.Metadata.Namespace = "team-a" :=
  ⟨_, rfl, _, List.mem_cons_self _ _,
    merged_namespace_last_wins mixedRecords _ (Or.inl rfl) _ (List.mem_cons_self _ _), rfl⟩

/-- C6: whenever the grouping transform (Starlark or TypeScript variant) returns
records, every returned record has apiVersion `v1`, kind `ConfigMap`, a name that
is the group key of an input record, and labels that are exactly `vpc-id` = that
name and `merged` = `true`. -/
theorem merged_record_fixed_fields (cms out : List ConfigMap)
    (h : processWithStarlark cms = .ok out ∨ processWithTypeScript cms = .ok out)
    (r : ConfigMap) (hr : r ∈ out) :
    r.APIVersion = "v1" ∧ r.Kind = "ConfigMap"
      ∧ (∃ c ∈ cms, groupKey c = some r.Metadata.Name)
      ∧ r.Metadata.Labels.map (fun l => l.entries)
          = some [("vpc-id", r.Metadata.Name), ("merged", "true")] := by
  obtain ⟨_, rfl⟩ := returns_spec cms out h
  obtain ⟨hkey, hrec⟩ := mem_specTransform cms r hr
  refine ⟨?_, ?_, hkey, ?_⟩
  · rw [hrec]; rfl
  · rw [hrec]; rfl
  · conv_lhs => rw [hrec]
    simp [specMergedRecord, specMergedLabels_entries]

/-- Witness of C6 on `mixedRecords`, whose second labelled record carries an `az`
label. -/
theorem merged_record_fixed_fields_witness :
    ∃ out, processWithTypeScript mixedRecords = .ok out
      ∧ ∃ r ∈ out, r.APIVersion = "v1" ∧ r.Kind = "ConfigMap"
        ∧ (∃ c ∈ mixedRecords, groupKey c = some r.Metadata.Name)
        ∧ r.Metadata.Labels.map (fun l => l.entries)
            = some [("vpc-id", r.Metadata.Name), ("merged", "true")] :=
  ⟨_, rfl, _, List.mem_cons_self _ _,
    merged_record_fixed_fields mixedRecords _ (Or.inr rfl) _ (List.mem_cons_self _ _)⟩

/-- C7: whenever the grouping transform (Starlark or TypeScript variant) returns
records, the list of their names is the list of non-empty `vpc-id` label values of
the input, in input order, with every repeated occurrence after the first
removed; in particular no name occurs twice. -/
theorem output_in_first_seen_order (cms out : List ConfigMap)
    (h : processWithStarlark cms = .ok out ∨ processWithTypeScript cms = .ok out) :
    namesOf out = firstSeen (cms.filterMap groupKey) ∧ (namesOf out).Nodup := by
  obtain ⟨_, rfl⟩ := returns_spec cms out h
  rw [namesOf_specTransform]
  exact ⟨rfl, nodup_firstSeen _⟩

/-- Witness of C7 on the five records of `main`. -/
theorem output_in_first_seen_order_witness :
    processWithStarlark sampleConfigMaps = .ok sampleMerged
      ∧ namesOf sampleMerged = firstSeen (sampleConfigMaps.filterMap groupKey)
      ∧ (namesOf sampleMerged).Nodup :=
  ⟨rfl, output_in_first_seen_order sampleConfigMaps sampleMerged (Or.inl rfl)⟩

/-- C8: on every input sequence the Starlark and the TypeScript variant return
the same list of merged records, and one fails exactly when the other fails. -/
theorem starlark_typescript_agree (cms : List ConfigMap) :
    (∀ out, processWithStarlark cms = .ok out ↔ processWithTypeScript cms = .ok out)
      ∧ ((∃ e, processWithStarlark cms = .error e) ↔ (∃ e, processWithTypeScript cms = .error e)) := by
  by_cases hd : LabelledHaveData cms
  · rw [processWithStarlark_ok cms hd, processWithTypeScript_ok cms hd]
    simp
  · obtain ⟨e1, he1⟩ := processWithStarlark_error cms hd
    obtain ⟨e2, he2⟩ := processWithTypeScript_error cms hd
    rw [he1, he2]
    simp

/-- C10: on the five records hardcoded in `main` the Starlark and the TypeScript
variant return exactly two records, `vpc-12345` with the three subnet entries of
its records and `vpc-67890` with the two of its records, in this order, each in
namespace `default` with the labels `vpc-id` and `merged` = `true`. -/
theorem sample_run :
    processWithStarlark sampleConfigMaps = .ok [
      ⟨"v1", "ConfigMap",
        ⟨"vpc-12345", "default", some ⟨[("vpc-id", "vpc-12345"), ("merged", "true")], by decide⟩⟩,
        some ⟨[("subnet-az1a.subnet-id", "subnet-aaa111"),
          ("subnet-az1c.subnet-id", "subnet-ccc333"),
          ("subnet-az1d.subnet-id", "subnet-ddd444")], by decide⟩⟩,
      ⟨"v1", "ConfigMap",
        ⟨"vpc-67890", "default", some ⟨[("vpc-id", "vpc-67890"), ("merged", "true")], by decide⟩⟩,
        some ⟨[("subnet-vpc2-az1a.subnet-id", "subnet-bbb222"),
          ("subnet-vpc2-az1c.subnet-id", "subnet-eee555")], by decide⟩⟩]
    ∧ processWithTypeScript sampleConfigMaps = processWithStarlark sampleConfigMaps :=
  ⟨rfl, rfl⟩

/-! ## The CUE view of an input record -/

theorem cue_stringFields (l : List (String × String)) :
    Cue.stringFields (l.map fun kv => (kv.1, GoValue.string kv.2)) = .ok l := by
  induction l with
  | nil => rfl
  | cons hd tl ih =>
    obtain ⟨k, v⟩ := hd
    simp only [List.map_cons, Cue.stringFields, ih]

theorem cue_unifyConfigMap (c : ConfigMap) (h : c.Data ≠ none) :
    Cue.unifyConfigMap (encodeConfigMap c) = .ok (cueRecord c) := by
  obtain ⟨d, hd⟩ := Option.ne_none_iff_exists'.mp h
  unfold encodeConfigMap encodeMetadata cueRecord cueNamespace labelEntries
  rw [hd]
  cases hl : c.Metadata.Labels with
  | none =>
    by_cases hn : c.Metadata.Namespace = "" <;>
      simp [Cue.unifyConfigMap, lookup_cons_ite, encodeStrMap, cue_stringFields, hn]
  | some l =>
    by_cases hn : c.Metadata.Namespace = "" <;> by_cases he : l.entries.isEmpty = true <;>
      simp [Cue.unifyConfigMap, lookup_cons_ite, encodeStrMap, cue_stringFields, hn, he]
    all_goals simp_all [List.isEmpty_iff]

theorem cue_unifyConfigMap_null (c : ConfigMap) (h : c.Data = none) :
    ∃ e, Cue.unifyConfigMap (encodeConfigMap c) = .error e := by
  unfold encodeConfigMap
  rw [h]
  cases hm : encodeMetadata c.Metadata <;>
    exact ⟨"conflicting values: metadata or data is not a struct",
      by simp [Cue.unifyConfigMap, lookup_cons_ite]⟩

theorem cue_unifyElems (cms : List ConfigMap) (h : ∀ c ∈ cms, c.Data ≠ none) :
    Cue.unifyElems (cms.map encodeConfigMap) = .ok (cms.map cueRecord) := by
  induction cms with
  | nil => rfl
  | cons c rest ih =>
    simp only [List.map_cons, Cue.unifyElems, cue_unifyConfigMap c (h c (List.mem_cons_self _ _)),
      ih (fun x hx => h x (List.mem_cons_of_mem _ hx))]

theorem cue_unifyElems_null (cms : List ConfigMap) (h : ∃ c ∈ cms, c.Data = none) :
    ∃ e, Cue.unifyElems (cms.map encodeConfigMap) = .error e := by
  induction cms with
  | nil => simp at h
  | cons c rest ih =>
    simp only [List.map_cons, Cue.unifyElems]
    cases hc : Cue.unifyConfigMap (encodeConfigMap c) with
    | error e =>
      cases Cue.unifyElems (List.map encodeConfigMap rest) <;> exact ⟨e, rfl⟩
    | ok r =>
      obtain ⟨x, hx, hxd⟩ := h
      rcases List.mem_cons.mp hx with h1 | h1
      · subst h1
        obtain ⟨e, he⟩ := cue_unifyConfigMap_null x hxd
        rw [he] at hc
        cases hc
      · obtain ⟨e, he⟩ := ih ⟨x, h1, hxd⟩
        exact ⟨e, by rw [he]⟩

theorem setEntry_setEntry {α : Type} (k : String) (v w : α) (m : List (String × α)) :
    setEntry k v (setEntry k w m) = setEntry k v m := by
  induction m with
  | nil => simp [setEntry]
  | cons hd tl ih =>
    obtain ⟨k0, v0⟩ := hd
    by_cases h : k0 = k
    · simp [setEntry, h]
    · simp [setEntry, h, ih]

theorem addToGroup_eq {α : Type} (k : String) (c : α) (groups : List (String × List α)) :
    addToGroup k c groups = setEntry k ((groups.lookup k).getD [] ++ [c]) groups := by
  unfold addToGroup
  cases h : groups.lookup k with
  | none => simp [lookup_setEntry, setEntry_setEntry]
  | some l => simp [h]

theorem groupFold_congr {α : Type} (f g : α → Option String) (cms : List α)
    (groups : List (String × List α)) (h : ∀ c ∈ cms, f c = g c) :
    groupFold f cms groups = groupFold g cms groups := by
  induction cms generalizing groups with
  | nil => rfl
  | cons c rest ih =>
    have hc := h c (List.mem_cons_self _ _)
    have hr : ∀ x ∈ rest, f x = g x := fun x hx => h x (List.mem_cons_of_mem _ hx)
    simp only [groupFold, hc]
    cases g c with
    | none => exact ih _ hr
    | some k => exact ih _ hr

theorem cueGroup_append (group : List ConfigMap) (c : ConfigMap) :
    cueGroup (group ++ [c]) = cueGroupStep (cueGroup group) c := by
  simp [cueGroup, List.foldl_append]

theorem cue_vpcGroups_eq (cms : List ConfigMap) (groups : List (String × List ConfigMap)) :
    Cue.vpcGroups (cms.map cueRecord) (mapValues cueGroup groups)
      = mapValues cueGroup (groupFold vpcLabel cms groups) := by
  induction cms generalizing groups with
  | nil => rfl
  | cons c rest ih =>
    have hl : (cueRecord c).labels.lookup "vpc-id" = vpcLabel c := lookup_labelEntries c
    rw [List.map_cons, Cue.vpcGroups, hl]
    cases hv : vpcLabel c with
    | none =>
      simp only [groupFold, hv]
      exact ih groups
    | some vid =>
      simp only [groupFold, hv]
      rw [addToGroup_eq, ← ih, ← setEntry_mapValues, cueGroup_append, lookup_mapValues]
      have e : ((groups.lookup vid).map cueGroup).getD ⟨.any, .any⟩
          = cueGroup ((groups.lookup vid).getD []) := by
        cases groups.lookup vid <;> rfl
      rw [e]
      congr 2
      simp [cueGroupStep, hv]
      rfl

theorem vpcLabel_eq_groupKey (c : ConfigMap) (h : groupKey c ≠ none) :
    vpcLabel c = groupKey c := by
  unfold groupKey at h ⊢
  cases hv : vpcLabel c with
  | none => simp [Option.filter]
  | some v =>
    by_cases he : v = ""
    · simp [hv, Option.filter, he] at h
    · simp [Option.filter, he]

theorem cueGroup_fold_nspace (group : List ConfigMap) (g : Cue.Group) :
    (group.foldl cueGroupStep g).nspace
      = group.foldl (fun s c => Cue.Str.unify s (cueNamespace c)) g.nspace := by
  induction group generalizing g with
  | nil => rfl
  | cons c rest ih =>
    rw [List.foldl_cons, List.foldl_cons, ih]
    rfl

theorem cue_unify_lit_fold (group : List ConfigMap) (n : String)
    (h : ∀ c ∈ group, c.Metadata.Namespace = "" ∨ c.Metadata.Namespace = n) :
    group.foldl (fun s c => Cue.Str.unify s (cueNamespace c)) (.lit n) = .lit n := by
  induction group with
  | nil => rfl
  | cons c rest ih =>
    rw [List.foldl_cons]
    have hstep : Cue.Str.unify (.lit n) (cueNamespace c) = .lit n := by
      unfold cueNamespace
      rcases h c (List.mem_cons_self _ _) with h1 | h1
      · simp [h1, Cue.Str.unify]
      · by_cases he : c.Metadata.Namespace = ""
        · simp [he, Cue.Str.unify]
        · have hn2 : ¬ n = "" := h1 ▸ he
          simp [h1, hn2, Cue.Str.unify]
    rw [hstep]
    exact ih (fun x hx => h x (List.mem_cons_of_mem _ hx))

theorem cue_unify_any_fold (group : List ConfigMap) (n : String) (hn : n ≠ "")
    (h : ∀ c ∈ group, c.Metadata.Namespace = "" ∨ c.Metadata.Namespace = n)
    (hex : ∃ c ∈ group, c.Metadata.Namespace = n) :
    group.foldl (fun s c => Cue.Str.unify s (cueNamespace c)) .any = .lit n := by
  induction group with
  | nil => simp at hex
  | cons c rest ih =>
    rw [List.foldl_cons]
    have hrest : ∀ x ∈ rest, x.Metadata.Namespace = "" ∨ x.Metadata.Namespace = n :=
      fun x hx => h x (List.mem_cons_of_mem _ hx)
    by_cases he : c.Metadata.Namespace = ""
    · have hstep : Cue.Str.unify .any (cueNamespace c) = .any := by
        simp [cueNamespace, he, Cue.Str.unify]
      rw [hstep]
      apply ih hrest
      obtain ⟨x, hx, hxn⟩ := hex
      rcases List.mem_cons.mp hx with h1 | h1
      · subst h1
        rw [he] at hxn
        exact absurd hxn.symm hn
      · exact ⟨x, h1, hxn⟩
    · have hcn : c.Metadata.Namespace = n := by
        rcases h c (List.mem_cons_self _ _) with h1 | h1
        · exact absurd h1 he
        · exact h1
      have hstep : Cue.Str.unify .any (cueNamespace c) = .lit n := by
        have hn2 : ¬ n = "" := hn
        simp [cueNamespace, hcn, hn2, Cue.Str.unify]
      rw [hstep]
      exact cue_unify_lit_fold rest n hrest

theorem namespace_fold_common (group : List ConfigMap) (n s : String) (hn : n ≠ "")
    (h : ∀ c ∈ group, c.Metadata.Namespace = "" ∨ c.Metadata.Namespace = n)
    (hs : s = n ∨ ∃ c ∈ group, c.Metadata.Namespace = n) :
    group.foldl namespaceStep s = n := by
  induction group generalizing s with
  | nil =>
    rcases hs with h1 | ⟨c, hc, _⟩
    · exact h1
    · simp at hc
  | cons c rest ih =>
    rw [List.foldl_cons]
    apply ih _ (fun x hx => h x (List.mem_cons_of_mem _ hx))
    unfold namespaceStep
    by_cases he : c.Metadata.Namespace = ""
    · rw [if_pos he]
      rcases hs with h1 | ⟨x, hx, hxn⟩
      · exact Or.inl h1
      · rcases List.mem_cons.mp hx with h2 | h2
        · subst h2
          rw [he] at hxn
          exact absurd hxn.symm hn
        · exact Or.inr ⟨x, h2, hxn⟩
    · rw [if_neg he]
      rcases h c (List.mem_cons_self _ _) with h1 | h1
      · exact absurd h1 he
      · exact Or.inl h1

theorem cue_decodeFields (l : List (String × String)) :
    Cue.decodeFields (mapValues Cue.Str.lit l) = .ok (mapValues GoValue.string l) := by
  induction l with
  | nil => rfl
  | cons hd tl ih =>
    obtain ⟨k, v⟩ := hd
    have e : mapValues Cue.Str.lit ((k, v) :: tl) = (k, Cue.Str.lit v) :: mapValues Cue.Str.lit tl := rfl
    rw [e, Cue.decodeFields, ih]
    rfl

theorem cue_decodeMerged (k ns : String) (l : List (String × String)) :
    Cue.decodeMerged ⟨k, .lit ns, .ok (mapValues Cue.Str.lit l)⟩ = .ok (goMerged k ns l) := by
  simp [Cue.decodeMerged, Cue.decodeStr, cue_decodeFields, goMerged]

theorem decode_goMerged (k ns : String) (m : StrMap) :
    decodeConfigMap (goMerged k ns m.entries)
      = .ok ⟨"v1", "ConfigMap", ⟨k, ns, some (specMergedLabels k)⟩, some m⟩ := by
  simp [goMerged, decodeConfigMap, lookup_cons_ite, decodeString, decodeMetadata,
    decodeStrMap_strings, decodeStrMap_labels]

theorem cue_decodeList_map {α : Type} (f : α → Cue.Merged) (g : α → GoValue) (l : List α)
    (h : ∀ x ∈ l, Cue.decodeMerged (f x) = .ok (g x)) :
    Cue.decodeList (l.map f) = .ok (l.map g) := by
  induction l with
  | nil => rfl
  | cons c rest ih =>
    simp only [List.map_cons, Cue.decodeList, h c (List.mem_cons_self _ _),
      ih (fun x hx => h x (List.mem_cons_of_mem _ hx))]

theorem mem_of_lookup {α : Type} (q : String) (w : α) (m : List (String × α))
    (h : m.lookup q = some w) : (q, w) ∈ m := by
  induction m with
  | nil => simp at h
  | cons hd tl ih =>
    obtain ⟨k0, v0⟩ := hd
    rw [lookup_cons_ite] at h
    by_cases hq : q = k0
    · rw [if_pos hq] at h
      cases h
      rw [hq]
      exact List.mem_cons_self _ _
    · rw [if_neg hq] at h
      exact List.mem_cons_of_mem _ (ih h)

theorem cue_selectConfigMaps (vid : String) (cms : List ConfigMap)
    (h : ∀ c ∈ cms, vpcLabel c ≠ none) :
    Cue.selectConfigMaps vid (cms.map cueRecord)
      = .ok ((cms.filter fun c => vpcLabel c = some vid).map cueRecord) := by
  induction cms with
  | nil => rfl
  | cons c rest ih =>
    have hl : (cueRecord c).labels.lookup "vpc-id" = vpcLabel c := lookup_labelEntries c
    obtain ⟨v, hv⟩ := Option.ne_none_iff_exists'.mp (h c (List.mem_cons_self _ _))
    rw [List.map_cons, Cue.selectConfigMaps, hl, hv,
      ih (fun x hx => h x (List.mem_cons_of_mem _ hx))]
    by_cases e : v = vid
    · simp [List.filter_cons, hv, e]
    · simp [List.filter_cons, hv, e]

theorem cue_dataClauses_no_subnet (cm : Cue.Record) (es : List (String × String))
    (fields : List (String × Cue.Str)) (h : "subnet-id" ∉ keysOf es) :
    Cue.dataClauses cm es fields = fields := by
  induction es with
  | nil => rfl
  | cons hd tl ih =>
    obtain ⟨k, v⟩ := hd
    simp only [keysOf, List.map_cons, List.mem_cons, not_or] at h
    have hk : ¬ k = "subnet-id" := fun e => h.1 e.symm
    rw [Cue.dataClauses, if_neg hk]
    exact ih h.2

theorem cue_dataClauses_eq (cm : Cue.Record) (es : List (String × String))
    (fields : List (String × Cue.Str)) (h : (keysOf es).Nodup) :
    Cue.dataClauses cm es fields
      = match es.lookup "subnet-id" with
        | some v => Cue.unifyField (cm.name ++ ".subnet-id") (.lit v) fields
        | none => fields := by
  induction es with
  | nil => rfl
  | cons hd tl ih =>
    obtain ⟨k, v⟩ := hd
    simp only [keysOf, List.map_cons, List.nodup_cons] at h
    rw [Cue.dataClauses, lookup_cons_ite]
    by_cases hk : k = "subnet-id"
    · subst hk
      simp only [if_true, dotted_key]
      exact cue_dataClauses_no_subnet cm tl _ h.1
    · have hk2 : ¬ "subnet-id" = k := fun e => hk e.symm
      rw [if_neg hk, if_neg hk2]
      exact ih h.2

theorem cueRecord_data_nodup (c : ConfigMap) : (keysOf (cueRecord c).data).Nodup := by
  unfold cueRecord
  cases c.Data with
  | none => simp [keysOf]
  | some d => exact d.nodup

theorem cueRecord_subnet (c : ConfigMap) :
    (cueRecord c).data.lookup "subnet-id" = subnetId c := by
  unfold cueRecord subnetId
  cases c.Data with
  | none => rfl
  | some d => rfl

theorem cue_dataFields_eq (group : List ConfigMap) (m : StrMap)
    (hpair : ∀ c ∈ group, ∀ c' ∈ group, c.Metadata.Name = c'.Metadata.Name →
      ∀ v v', subnetId c = some v → subnetId c' = some v' → v = v')
    (hold : ∀ c ∈ group, ∀ v, subnetId c = some v →
      ∀ w, (c.Metadata.Name ++ ".subnet-id", w) ∈ m.entries → w = v) :
    Cue.dataFields (group.map cueRecord) (mapValues Cue.Str.lit m.entries)
      = mapValues Cue.Str.lit (group.foldl dataStep m).entries := by
  induction group generalizing m with
  | nil => rfl
  | cons c rest ih =>
    rw [List.map_cons, Cue.dataFields, cue_dataClauses_eq _ _ _ (cueRecord_data_nodup c),
      cueRecord_subnet, List.foldl_cons]
    have hpair2 : ∀ x ∈ rest, ∀ y ∈ rest, x.Metadata.Name = y.Metadata.Name →
        ∀ v v', subnetId x = some v → subnetId y = some v' → v = v' :=
      fun x hx y hy => hpair x (List.mem_cons_of_mem _ hx) y (List.mem_cons_of_mem _ hy)
    cases hs : subnetId c with
    | none =>
      have e : dataStep m c = m := by simp [dataStep, hs]
      rw [e]
      exact ih m hpair2 (fun x hx => hold x (List.mem_cons_of_mem _ hx))
    | some v =>
      have hstep : Cue.unifyField ((cueRecord c).name ++ ".subnet-id") (.lit v)
          (mapValues Cue.Str.lit m.entries)
          = mapValues Cue.Str.lit (dataStep m c).entries := by
        have hname : (cueRecord c).name = c.Metadata.Name := rfl
        simp only [Cue.unifyField, hname, dataStep, hs, StrMap.insert, lookup_mapValues]
        rw [← setEntry_mapValues]
        congr 1
        cases hlk : m.entries.lookup (c.Metadata.Name ++ ".subnet-id") with
        | none => rfl
        | some w =>
          have hmem : (c.Metadata.Name ++ ".subnet-id", w) ∈ m.entries :=
            mem_of_lookup _ _ _ hlk
          have hw := hold c (List.mem_cons_self _ _) v hs w hmem
          simp [Cue.Str.unify, hw]
      simp only [hstep]
      apply ih _ hpair2
      intro x hx v' hxs w hw
      have hent : (dataStep m c).entries
          = setEntry (c.Metadata.Name ++ ".subnet-id") v m.entries := by
        simp [dataStep, hs, StrMap.insert]
      rw [hent] at hw
      rcases mem_setEntry _ _ _ _ _ hw with h1 | h1
      · have hq := (Prod.mk.inj h1).1
        have hwv := (Prod.mk.inj h1).2
        have hname := string_append_right_cancel _ _ _ hq
        rw [hwv]
        exact hpair c (List.mem_cons_self _ _) x (List.mem_cons_of_mem _ hx) hname.symm v v' hs hxs
      · exact hold x (List.mem_cons_of_mem _ hx) v' hxs w h1

/-! ## The CUE program where its unifications succeed -/

theorem cue_group_namespace (cms : List ConfigMap) (k : String)
    (hk : ∃ c ∈ cms, groupKey c = some k)
    (hns : ∀ c ∈ cms, ∃ c' ∈ cms, groupKey c' = groupKey c ∧ c'.Metadata.Namespace ≠ "")
    (hagree : ∀ c ∈ cms, ∀ c' ∈ cms, groupKey c = groupKey c' →
      c.Metadata.Namespace ≠ "" → c'.Metadata.Namespace ≠ "" →
      c.Metadata.Namespace = c'.Metadata.Namespace) :
    (cueGroup (groupOf k cms)).nspace = .lit (specMergedNamespace (groupOf k cms)) := by
  obtain ⟨c, hc, hck⟩ := hk
  obtain ⟨c', hc', hkey, hne⟩ := hns c hc
  have hmem : ∀ x ∈ groupOf k cms, x ∈ cms ∧ groupKey x = some k := by
    intro x hx
    simpa [groupOf] using hx
  have hall : ∀ x ∈ groupOf k cms,
      x.Metadata.Namespace = "" ∨ x.Metadata.Namespace = c'.Metadata.Namespace := by
    intro x hx
    obtain ⟨hxc, hxk⟩ := hmem x hx
    by_cases he : x.Metadata.Namespace = ""
    · exact Or.inl he
    · exact Or.inr (hagree x hxc c' hc' (by rw [hxk, hkey, hck]) he hne)
  have hex : ∃ x ∈ groupOf k cms, x.Metadata.Namespace = c'.Metadata.Namespace :=
    ⟨c', by simp [groupOf, hc', hkey, hck], rfl⟩
  have h1 : (cueGroup (groupOf k cms)).nspace = .lit c'.Metadata.Namespace := by
    unfold cueGroup
    rw [cueGroup_fold_nspace]
    exact cue_unify_any_fold _ _ hne hall hex
  have h2 : specMergedNamespace (groupOf k cms) = c'.Metadata.Namespace := by
    unfold specMergedNamespace
    rw [← namespace_fold_eq]
    exact namespace_fold_common _ _ _ hne hall (Or.inr hex)
  rw [h1, h2]

theorem cue_group_data (cms : List ConfigMap) (k : String)
    (hsub : ∀ c ∈ cms, ∀ c' ∈ cms, groupKey c = groupKey c' →
      c.Metadata.Name = c'.Metadata.Name →
      ∀ v v', subnetId c = some v → subnetId c' = some v' → v = v') :
    Cue.dataFields ((groupOf k cms).map cueRecord) []
      = mapValues Cue.Str.lit (specMergedData (groupOf k cms)).entries := by
  have hmem : ∀ x ∈ groupOf k cms, x ∈ cms ∧ groupKey x = some k := by
    intro x hx
    simpa [groupOf] using hx
  have := cue_dataFields_eq (groupOf k cms) StrMap.empty
    (fun x hx y hy hname v v' hv hv' =>
      hsub x (hmem x hx).1 y (hmem y hy).1 (by rw [(hmem x hx).2, (hmem y hy).2]) hname v v' hv hv')
    (fun x _ v _ w hw => by simp [StrMap.empty] at hw)
  exact this

theorem processWithCUE_ok (cms : List ConfigMap)
    (hdata : ∀ c ∈ cms, c.Data ≠ none)
    (hlabel : ∀ c ∈ cms, groupKey c ≠ none)
    (hns : ∀ c ∈ cms, ∃ c' ∈ cms, groupKey c' = groupKey c ∧ c'.Metadata.Namespace ≠ "")
    (hagree : ∀ c ∈ cms, ∀ c' ∈ cms, groupKey c = groupKey c' →
      c.Metadata.Namespace ≠ "" → c'.Metadata.Namespace ≠ "" →
      c.Metadata.Namespace = c'.Metadata.Namespace)
    (hsub : ∀ c ∈ cms, ∀ c' ∈ cms, groupKey c = groupKey c' →
      c.Metadata.Name = c'.Metadata.Name →
      ∀ v v', subnetId c = some v → subnetId c' = some v' → v = v') :
    processWithCUE cms = .ok (specTransform cms) := by
  have hG : Cue.vpcGroups (cms.map cueRecord) []
      = mapValues cueGroup ((firstSeen (cms.filterMap groupKey)).map fun k =>
          (k, groupOf k cms)) := by
    have := cue_vpcGroups_eq cms []
    rw [groupFold_congr vpcLabel groupKey cms []
      (fun c hc => vpcLabel_eq_groupKey c (hlabel c hc)), groupFold_groupKey] at this
    exact this
  have hsel : ∀ k, Cue.selectConfigMaps k (cms.map cueRecord)
      = .ok ((groupOf k cms).map cueRecord) := by
    intro k
    rw [cue_selectConfigMaps k cms (fun c hc => by
      rw [vpcLabel_eq_groupKey c (hlabel c hc)]; exact hlabel c hc)]
    congr 2
    unfold groupOf
    apply List.filter_congr
    intro c hc
    rw [vpcLabel_eq_groupKey c (hlabel c hc)]
  have hM : Cue.mergedConfigMaps (Cue.enrichedGroups (cms.map cueRecord)
        (Cue.vpcGroups (cms.map cueRecord) []))
      = (firstSeen (cms.filterMap groupKey)).map fun k =>
          (⟨k, .lit (specMergedNamespace (groupOf k cms)),
            .ok (mapValues Cue.Str.lit (specMergedData (groupOf k cms)).entries)⟩ : Cue.Merged) := by
    rw [hG]
    simp only [Cue.mergedConfigMaps, Cue.enrichedGroups, mapValues, List.map_map]
    apply List.map_congr_left
    intro k hk
    rw [mem_firstSeen] at hk
    obtain ⟨c, hc, hck⟩ := List.mem_filterMap.mp hk
    simp only [Function.comp_apply, hsel, cue_group_data cms k hsub,
      cue_group_namespace cms k ⟨c, hc, hck⟩ hns hagree]
    rfl
  unfold processWithCUE encodeConfigMaps
  simp only [Cue.fillPath, cue_unifyElems cms hdata, bind, Except.bind, hM]
  rw [cue_decodeList_map _ (fun k => goMerged k (specMergedNamespace (groupOf k cms))
      (specMergedData (groupOf k cms)).entries) _ (fun k _ => cue_decodeMerged _ _ _)]
  simp only [decodeConfigMaps]
  rw [decodeElems_map _ (fun k => specMergedRecord k (groupOf k cms)) _
    (fun k _ => decode_goMerged _ _ _)]
  rfl

/-- C9 fails as stated.  On two records of one VPC in the namespaces `team-a` and
`team-b` the Starlark and TypeScript variants return one record in `team-b`,
while the CUE variant unifies the two namespaces and fails; on two records of one
VPC that share a name it fails on the two `subnet-id` values while the other
variants keep the last; on a record without labels and without data, next to
labelled ones, it fails while the other variants skip the record; on a labelled
record without namespace the other variants return namespace `default`, which the
CUE variant does not; and on a record whose `vpc-id` label is empty the other
variants return no record, which the CUE variant does not. -/
theorem cue_differs_counterexample :
    (processWithStarlark namespaceConflictRecords
        = .ok [⟨"v1", "ConfigMap",
            ⟨"vpc-1", "team-b", some ⟨[("vpc-id", "vpc-1"), ("merged", "true")], by decide⟩⟩,
            some ⟨[("subnet-a.subnet-id", "subnet-111"), ("subnet-b.subnet-id", "subnet-222")],
              by decide⟩⟩]
      ∧ processWithTypeScript namespaceConflictRecords
        = processWithStarlark namespaceConflictRecords
      ∧ ∃ e, processWithCUE namespaceConflictRecords = .error e)
    ∧ (processWithStarlark sameNameRecords
        = .ok [⟨"v1", "ConfigMap",
            ⟨"vpc-1", "default", some ⟨[("vpc-id", "vpc-1"), ("merged", "true")], by decide⟩⟩,
            some ⟨[("subnet-a.subnet-id", "subnet-222")], by decide⟩⟩]
      ∧ ∃ e, processWithCUE sameNameRecords = .error e)
    ∧ (processWithStarlark mixedRecords
        = .ok [⟨"v1", "ConfigMap",
            ⟨"vpc-1", "team-a", some ⟨[("vpc-id", "vpc-1"), ("merged", "true")], by decide⟩⟩,
            some ⟨[("subnet-a.subnet-id", "subnet-111"), ("subnet-b.subnet-id", "subnet-222")],
              by decide⟩⟩]
      ∧ ∃ e, processWithCUE mixedRecords = .error e)
    ∧ (processWithStarlark noNamespaceRecords
        = .ok [⟨"v1", "ConfigMap",
            ⟨"vpc-1", "default", some ⟨[("vpc-id", "vpc-1"), ("merged", "true")], by decide⟩⟩,
            some ⟨[("subnet-a.subnet-id", "subnet-111")], by decide⟩⟩]
      ∧ (processWithCUE noNamespaceRecords).toOption
          ≠ (processWithStarlark noNamespaceRecords).toOption)
    ∧ (processWithStarlark emptyLabelRecords = .ok []
      ∧ (processWithCUE emptyLabelRecords).toOption
          ≠ (processWithStarlark emptyLabelRecords).toOption) :=
  ⟨⟨rfl, rfl, _, rfl⟩, ⟨rfl, _, rfl⟩, ⟨rfl, _, rfl⟩, ⟨rfl, by decide⟩, ⟨rfl, by decide⟩⟩

/-- C9 as amended: on an input in which every record has a data mapping and a
non-empty `vpc-id` label, every group has a record with a non-empty namespace,
the non-empty namespaces within a group are equal, and records of a group that
share a name and have a `subnet-id` entry carry the same one, the CUE variant
returns, without failing, the list of merged records that the Starlark and the
TypeScript variants return (same keys, and per group the same name, namespace,
labels and data). -/
theorem cue_agrees_when_unifiable (cms : List ConfigMap)
    (hdata : ∀ c ∈ cms, c.Data ≠ none)
    (hlabel : ∀ c ∈ cms, groupKey c ≠ none)
    (hns : ∀ c ∈ cms, ∃ c' ∈ cms, groupKey c' = groupKey c ∧ c'.Metadata.Namespace ≠ "")
    (hagree : ∀ c ∈ cms, ∀ c' ∈ cms, groupKey c = groupKey c' →
      c.Metadata.Namespace ≠ "" → c'.Metadata.Namespace ≠ "" →
      c.Metadata.Namespace = c'.Metadata.Namespace)
    (hsub : ∀ c ∈ cms, ∀ c' ∈ cms, groupKey c = groupKey c' →
      c.Metadata.Name = c'.Metadata.Name →
      subnetId c ≠ none → subnetId c' ≠ none → subnetId c = subnetId c') :
    ∃ out, processWithCUE cms = .ok out
      ∧ processWithStarlark cms = .ok out
      ∧ processWithTypeScript cms = .ok out := by
  have hd : LabelledHaveData cms := fun c hc _ => hdata c hc
  refine ⟨specTransform cms, ?_, processWithStarlark_ok cms hd, processWithTypeScript_ok cms hd⟩
  apply processWithCUE_ok cms hdata hlabel hns hagree
  intro c hc c' hc' hkey hname v v' hv hv'
  have := hsub c hc c' hc' hkey hname (by simp [hv]) (by simp [hv'])
  rw [hv, hv'] at this
  exact Option.some.inj this

/-- Witness of the amended C9: the five records of `main` meet the conditions,
and the three variants return the same two records. -/
theorem cue_agrees_when_unifiable_witness :
    (∀ c ∈ sampleConfigMaps, c.Data ≠ none)
      ∧ (∀ c ∈ sampleConfigMaps, groupKey c ≠ none)
      ∧ ∃ out, processWithCUE sampleConfigMaps = .ok out
        ∧ processWithStarlark sampleConfigMaps = .ok out
        ∧ processWithTypeScript sampleConfigMaps = .ok out :=
  ⟨by decide, by decide,
    cue_agrees_when_unifiable sampleConfigMaps (by decide) (by decide) (by decide) (by decide)
      (by decide)⟩

/-- C12 does not hold of the code: on two records of one VPC in the namespaces
`team-a` and `team-b`, in this order, the first record of the group that
specifies a namespace is in `team-a`, yet the Starlark and the TypeScript variant
both return the merged record in `team-b`: the namespace variable is overwritten
by every later record that has a namespace. -/
theorem first_namespace_overwritten :
    commentFirstNamespace (groupOf "vpc-1" namespaceConflictRecords) = "team-a"
      ∧ (∃ out, processWithStarlark namespaceConflictRecords = .ok out
          ∧ processWithTypeScript namespaceConflictRecords = .ok out
          ∧ namesOf out = ["vpc-1"]
          ∧ out.map (fun r => r.Metadata.Namespace) = ["team-b"]) :=
  ⟨by decide, _, rfl, rfl, by decide, by decide⟩

/-! ## Enumeration order of the input maps -/

theorem lookup_of_mem {α : Type} (q : String) (w : α) (m : List (String × α))
    (hn : (keysOf m).Nodup) (h : (q, w) ∈ m) : m.lookup q = some w := by
  induction m with
  | nil => simp at h
  | cons hd tl ih =>
    obtain ⟨k0, v0⟩ := hd
    simp only [keysOf, List.map_cons, List.nodup_cons] at hn
    rw [lookup_cons_ite]
    rcases List.mem_cons.mp h with h1 | h1
    · cases h1
      simp
    · have hq : q ≠ k0 := by
        intro e
        apply hn.1
        rw [← e]
        exact List.mem_map_of_mem Prod.fst h1
      rw [if_neg hq]
      exact ih hn.2 h1

theorem lookup_perm {α : Type} (q : String) (a b : List (String × α)) (hp : a.Perm b)
    (ha : (keysOf a).Nodup) (hb : (keysOf b).Nodup) : a.lookup q = b.lookup q := by
  cases h1 : a.lookup q with
  | some v =>
    exact (lookup_of_mem q v b hb (hp.mem_iff.mp (mem_of_lookup q v a h1))).symm
  | none =>
    cases h2 : b.lookup q with
    | none => rfl
    | some w =>
      have := lookup_of_mem q w a ha (hp.mem_iff.mpr (mem_of_lookup q w b h2))
      rw [h1] at this
      cases this

theorem sameMap_get (a b : Option StrMap) (h : sameMap a b) (q : String) :
    (a.bind fun m => m.get? q) = (b.bind fun m => m.get? q) := by
  cases a with
  | none =>
    cases b with
    | none => rfl
    | some y => exact absurd h (by simp [sameMap])
  | some x =>
    cases b with
    | none => exact absurd h (by simp [sameMap])
    | some y => exact lookup_perm q x.entries y.entries h x.nodup y.nodup

theorem sameMap_none (a b : Option StrMap) (h : sameMap a b) : a = none ↔ b = none := by
  cases a <;> cases b <;> simp_all [sameMap]

theorem sameView_of_sameRecord (a b : ConfigMap) (h : sameRecord a b) : sameView a b := by
  obtain ⟨_, _, hname, hns, hl, hd⟩ := h
  refine ⟨?_, hname, hns, ?_, sameMap_none _ _ hd⟩
  · unfold groupKey vpcLabel
    rw [sameMap_get _ _ hl]
  · unfold subnetId
    rw [sameMap_get _ _ hd]

theorem sameView_filterMap (l1 l2 : List ConfigMap) (h : List.Forall₂ sameView l1 l2) :
    l1.filterMap groupKey = l2.filterMap groupKey := by
  induction h with
  | nil => rfl
  | cons hab _ ih =>
    simp only [List.filterMap_cons, hab.1, ih]

theorem sameView_groupOf (k : String) (l1 l2 : List ConfigMap)
    (h : List.Forall₂ sameView l1 l2) :
    List.Forall₂ sameView (groupOf k l1) (groupOf k l2) := by
  induction h with
  | nil => exact List.Forall₂.nil
  | cons hab _ ih =>
    unfold groupOf at ih ⊢
    simp only [List.filter_cons, hab.1]
    split
    · exact List.Forall₂.cons hab ih
    · exact ih

theorem sameView_data (l1 l2 : List ConfigMap) (h : List.Forall₂ sameView l1 l2) (m : StrMap) :
    l1.foldl dataStep m = l2.foldl dataStep m := by
  induction h generalizing m with
  | nil => rfl
  | cons hab _ ih =>
    simp only [List.foldl_cons]
    have : ∀ x y : ConfigMap, sameView x y → dataStep m x = dataStep m y := by
      intro x y hxy
      simp only [dataStep, hxy.2.1, hxy.2.2.2.1]
    rw [this _ _ hab]
    exact ih _

theorem sameView_namespaces (l1 l2 : List ConfigMap) (h : List.Forall₂ sameView l1 l2) :
    (l1.map fun c => c.Metadata.Namespace) = l2.map fun c => c.Metadata.Namespace := by
  induction h with
  | nil => rfl
  | cons hab _ ih => simp only [List.map_cons, hab.2.2.1, ih]

theorem sameView_specTransform (l1 l2 : List ConfigMap) (h : List.Forall₂ sameView l1 l2) :
    specTransform l1 = specTransform l2 := by
  unfold specTransform
  rw [sameView_filterMap l1 l2 h]
  apply List.map_congr_left
  intro k _
  have hg := sameView_groupOf k l1 l2 h
  unfold specMergedRecord specMergedNamespace
  rw [sameView_namespaces _ _ hg]
  have hd : specMergedData (groupOf k l1) = specMergedData (groupOf k l2) :=
    sameView_data _ _ hg StrMap.empty
  rw [hd]

theorem sameView_haveData (l1 l2 : List ConfigMap) (h : List.Forall₂ sameView l1 l2) :
    LabelledHaveData l1 ↔ LabelledHaveData l2 := by
  induction h with
  | nil => exact Iff.rfl
  | cons hab _ ih =>
    unfold LabelledHaveData at ih ⊢
    simp only [List.forall_mem_cons, ih, hab.1, ne_eq, hab.2.2.2.2]

theorem sameRecord_sameView (l1 l2 : List ConfigMap) (h : List.Forall₂ sameRecord l1 l2) :
    List.Forall₂ sameView l1 l2 :=
  h.imp sameView_of_sameRecord

/-- C11: the grouping transform does not depend on the order in which the entries
of the labels and data mappings of the records are enumerated: two runs
(Starlark or TypeScript variant) on the same records, enumerated in whatever
orders, either both fail or both return the same list of merged records. -/
theorem enumeration_order_irrelevant (cms1 cms2 : List ConfigMap)
    (h : List.Forall₂ sameRecord cms1 cms2) :
    (processWithStarlark cms1).toOption = (processWithStarlark cms2).toOption
      ∧ (processWithTypeScript cms1).toOption = (processWithTypeScript cms2).toOption
      ∧ (processWithStarlark cms1).toOption = (processWithTypeScript cms2).toOption := by
  have hv := sameRecord_sameView cms1 cms2 h
  have hspec := sameView_specTransform cms1 cms2 hv
  have hdata := sameView_haveData cms1 cms2 hv
  by_cases hd : LabelledHaveData cms1
  · have hd2 := hdata.mp hd
    rw [processWithStarlark_ok cms1 hd, processWithStarlark_ok cms2 hd2,
      processWithTypeScript_ok cms1 hd, processWithTypeScript_ok cms2 hd2, hspec]
    exact ⟨rfl, rfl, rfl⟩
  · have hd2 : ¬ LabelledHaveData cms2 := fun x => hd (hdata.mpr x)
    obtain ⟨e1, he1⟩ := processWithStarlark_error cms1 hd
    obtain ⟨e2, he2⟩ := processWithStarlark_error cms2 hd2
    obtain ⟨e3, he3⟩ := processWithTypeScript_error cms1 hd
    obtain ⟨e4, he4⟩ := processWithTypeScript_error cms2 hd2
    rw [he1, he2, he3, he4]
    exact ⟨rfl, rfl, rfl⟩

/-- Witness of C11: two of the records of `main` with their labels and data
enumerated in two different orders. -/
theorem enumeration_order_irrelevant_witness :
    List.Forall₂ sameRecord orderedRecords reorderedRecords
      ∧ (processWithStarlark orderedRecords).toOption
          = (processWithStarlark reorderedRecords).toOption
      ∧ (processWithTypeScript orderedRecords).toOption
          = (processWithTypeScript reorderedRecords).toOption
      ∧ (processWithStarlark orderedRecords).toOption
          = (processWithTypeScript reorderedRecords).toOption :=
  have hrel : List.Forall₂ sameRecord orderedRecords reorderedRecords :=
    List.Forall₂.cons
      ⟨rfl, rfl, rfl, rfl, by show List.Perm _ _; decide, by show List.Perm _ _; decide⟩
      (List.Forall₂.cons
        ⟨rfl, rfl, rfl, rfl, by show List.Perm _ _; decide, by show List.Perm _ _; decide⟩
        List.Forall₂.nil)
  ⟨hrel, enumeration_order_irrelevant orderedRecords reorderedRecords hrel⟩

/-! ## Conversion to Starlark values and back -/

theorem goToStarlarkEntries_append (es : List (String × GoValue))
    (acc : List (String × SValue)) (h : (keysOf acc ++ keysOf es).Nodup) :
    goToStarlarkEntries es acc = acc ++ es.map fun kv => (kv.1, goToStarlark kv.2) := by
  induction es generalizing acc with
  | nil => simp [goToStarlarkEntries]
  | cons hd tl ih =>
    obtain ⟨k, v⟩ := hd
    have hk : k ∉ keysOf acc := by
      intro hmem
      have := (List.nodup_append.mp h).2.2
      exact this hmem (by simp [keysOf])
    rw [goToStarlarkEntries, setEntry_of_not_mem k _ acc hk, ih]
    · simp
    · simpa [keysOf, List.append_assoc] using h

theorem starlarkToGoItems_append (es : List (String × SValue))
    (acc : List (String × GoValue)) (h : (keysOf acc ++ keysOf es).Nodup) :
    starlarkToGoItems es acc = acc ++ es.map fun kv => (kv.1, starlarkToGo kv.2) := by
  induction es generalizing acc with
  | nil => simp [starlarkToGoItems]
  | cons hd tl ih =>
    obtain ⟨k, v⟩ := hd
    have hk : k ∉ keysOf acc := by
      intro hmem
      have := (List.nodup_append.mp h).2.2
      exact this hmem (by simp [keysOf])
    rw [starlarkToGoItems, setEntry_of_not_mem k _ acc hk, ih]
    · simp
    · simpa [keysOf, List.append_assoc] using h

mutual
theorem roundtrip_value : ∀ v : GoValue, jsonShaped v = true →
    starlarkToGo (goToStarlark v) = v
  | .nil, _ => by simp [goToStarlark, starlarkToGo]
  | .bool _, _ => by simp [goToStarlark, starlarkToGo]
  | .int _, h => by simp [jsonShaped] at h
  | .int64 _, h => by simp [jsonShaped] at h
  | .float64 _, _ => by simp [goToStarlark, starlarkToGo]
  | .string _, _ => by simp [goToStarlark, starlarkToGo]
  | .slice elems, h => by
    have hs : jsonShapedElems elems = true := by simpa [jsonShaped] using h
    rw [goToStarlark_slice, starlarkToGo_list, roundtrip_elems elems hs]
  | .map entries, h => by
    have hs : (keysOf entries).Nodup ∧ jsonShapedEntries entries = true := by
      simpa [jsonShaped] using h
    have hkeys : keysOf (entries.map fun kv => (kv.1, goToStarlark kv.2)) = keysOf entries := by
      simp [keysOf, Function.comp_def]
    rw [goToStarlark_map, goToStarlarkEntries_append entries [] (by simpa [keysOf] using hs.1),
      List.nil_append, starlarkToGo_dict,
      starlarkToGoItems_append _ [] (by rw [hkeys]; simpa [keysOf] using hs.1),
      List.nil_append, List.map_map]
    exact congrArg GoValue.map (roundtrip_entries entries hs.2)
theorem roundtrip_elems : ∀ l : List GoValue, jsonShapedElems l = true →
    starlarkToGoElems (goToStarlarkElems l) = l
  | [], _ => by simp [goToStarlarkElems, starlarkToGoElems]
  | v :: rest, h => by
    have hs : jsonShaped v = true ∧ jsonShapedElems rest = true := by
      simpa [jsonShapedElems] using h
    rw [goToStarlarkElems, starlarkToGoElems, roundtrip_value v hs.1, roundtrip_elems rest hs.2]
theorem roundtrip_entries : ∀ es : List (String × GoValue), jsonShapedEntries es = true →
    es.map ((fun kv => (kv.1, starlarkToGo kv.2)) ∘ fun kv => (kv.1, goToStarlark kv.2)) = es
  | [], _ => rfl
  | (k, v) :: rest, h => by
    have hs : jsonShaped v = true ∧ jsonShapedEntries rest = true := by
      simpa [jsonShapedEntries] using h
    rw [List.map_cons, roundtrip_entries rest hs.2]
    simp only [Function.comp_apply, roundtrip_value v hs.1]
end

/-- C13: for every Go value built only from nil, bool, float64, string,
`[]interface{}` and `map[string]interface{}` (slices and maps allocated, as
`json.Unmarshal` yields them), converting it with `goToStarlark` and back with
`starlarkToGo` gives the value again: a double is the same bit pattern, a slice
the same elements, a map the same entries. -/
theorem starlark_conversion_roundtrip (v : GoValue) (h : jsonShaped v = true) :
    starlarkToGo (goToStarlark v) = v :=
  roundtrip_value v h

/-- Witness of C13 on a value that has every shape. -/
theorem starlark_conversion_roundtrip_witness :
    jsonShaped sampleJSONValue = true
      ∧ starlarkToGo (goToStarlark sampleJSONValue) = sampleJSONValue :=
  ⟨by decide, starlark_conversion_roundtrip sampleJSONValue (by decide)⟩

/-! ## The excerpt loop -/

theorem lineNumbers_empty (lo hi : Int) (h : hi < lo) : lineNumbers lo hi = [] := by
  unfold lineNumbers
  have : (hi + 1 - lo).toNat = 0 := by omega
  rw [this]
  rfl

theorem lineNumbers_cons (lo hi : Int) (h : lo ≤ hi) :
    lineNumbers lo hi = lo :: lineNumbers (lo + 1) hi := by
  unfold lineNumbers
  have e : (hi + 1 - lo).toNat = (hi + 1 - (lo + 1)).toNat + 1 := by omega
  rw [e, List.range_succ_eq_map, List.map_cons, List.map_map]
  congr 1
  · simp
  · apply List.map_congr_left
    intro j _
    simp only [Function.comp_apply, Nat.succ_eq_add_one, Nat.cast_add, Nat.cast_one]
    omega

theorem mem_lineNumbers (lo hi x : Int) : x ∈ lineNumbers lo hi ↔ lo ≤ x ∧ x ≤ hi := by
  unfold lineNumbers
  simp only [List.mem_map, List.mem_range]
  constructor
  · rintro ⟨j, hj, rfl⟩
    omega
  · intro h
    refine ⟨(x - lo).toNat, ?_, ?_⟩ <;> omega

theorem nodup_lineNumbers (lo hi : Int) : (lineNumbers lo hi).Nodup := by
  unfold lineNumbers
  apply List.Nodup.map
  · intro a b hab
    simp only at hab
    omega
  · exact List.nodup_range _

theorem wrapInt_of_range (x : Int) (h1 : -9223372036854775808 ≤ x)
    (h2 : x < 9223372036854775808) : TypeScript.wrapInt x = x := by
  unfold TypeScript.wrapInt
  omega

theorem indexLine_ok (lines : List String) (i : Int) (h0 : 0 ≤ i) (h1 : i < lines.length) :
    TypeScript.indexLine lines i = .ok (lines.getD i.toNat "") := by
  unfold TypeScript.indexLine
  have hlt : i.toNat < lines.length := by omega
  simp [h0, List.getD, List.getElem?_eq_getElem hlt]

theorem contextLoop_eq (lines : List String) (line col stop : Int)
    (hcol0 : 0 ≤ col) (hcol : col + 8 < 9223372036854775808)
    (hstop : stop ≤ lines.length) :
    ∀ (fuel : Nat) (i : Int) (acc : List String), 0 ≤ i → (stop - i).toNat ≤ fuel →
      TypeScript.contextLoop lines line col stop fuel i acc
        = .ok (acc ++ specContext lines line col (i + 1) stop) := by
  intro fuel
  induction fuel with
  | zero =>
    intro i acc _ hf
    have hi : ¬ i < stop := by omega
    simp [TypeScript.contextLoop, hi, specContext, lineNumbers_empty (i + 1) stop (by omega)]
  | succ fuel ih =>
    intro i acc h0 hf
    by_cases hi : i < stop
    · have hidx := indexLine_ok lines i h0 (by omega)
      have hcons : specContext lines line col (i + 1) stop
          = specContextEntry lines line col (i + 1)
            ++ specContext lines line col (i + 1 + 1) stop := by
        unfold specContext
        rw [lineNumbers_cons (i + 1) stop (by omega), List.flatMap_cons]
      have hnat : (i + 1 - 1).toNat = i.toNat := by
        congr 1
        omega
      have hsp : TypeScript.repeatSpaces (TypeScript.wrapInt (col + 8))
          = .ok (String.mk (List.replicate (col + 8).toNat ' ')) := by
        rw [wrapInt_of_range (col + 8) (by omega) hcol]
        have : ¬ col + 8 < 0 := by omega
        simp [TypeScript.repeatSpaces, this]
      rw [TypeScript.contextLoop, if_pos hi, hidx, hcons]
      dsimp only
      by_cases hl : i + 1 = line
      · subst hl
        rw [if_pos rfl]
        simp only [hsp]
        rw [ih (i + 1) _ (by omega) (by omega)]
        simp only [specContextEntry, hnat, if_true, List.getD_eq_getElem?_getD, List.append_assoc,
          List.cons_append, List.nil_append]
      · rw [if_neg hl, ih (i + 1) _ (by omega) (by omega)]
        simp only [specContextEntry, hnat, hl, if_false, List.getD_eq_getElem?_getD,
          List.append_assoc, List.cons_append, List.nil_append]
    · rw [TypeScript.contextLoop, if_neg hi]
      simp [specContext, lineNumbers_empty (i + 1) stop (by omega)]

theorem context_bounds (n line : Int) (hn0 : 0 ≤ n) (hn : n < 4611686018427387904)
    (h1 : -9223372036854775808 ≤ line) (h2 : line < 9223372036854775808) :
    0 ≤ TypeScript.max 0 (TypeScript.wrapInt (line - 3))
      ∧ TypeScript.min n (TypeScript.wrapInt (line + 2)) ≤ n
      ∧ ((TypeScript.max 0 (TypeScript.wrapInt (line - 3)) + 1 = max 1 (line - 2)
            ∧ TypeScript.min n (TypeScript.wrapInt (line + 2)) = min n (line + 2))
          ∨ (TypeScript.min n (TypeScript.wrapInt (line + 2))
              < TypeScript.max 0 (TypeScript.wrapInt (line - 3)) + 1
            ∧ min n (line + 2) < max 1 (line - 2))) := by
  unfold TypeScript.max TypeScript.min TypeScript.wrapInt
  refine ⟨?_, ?_, ?_⟩
  · split <;> omega
  · split <;> omega
  · split <;> split <;> omega

/-- C14: for source lines `lines` (`n` of them, fewer than 2^62), a source line
number `line` in the range of a Go `int` and a column `col >= 0` with `col + 8`
in that range, the context loop of `mapErrorToTypeScript` never indexes `lines`
out of range and builds exactly the excerpt of the source lines numbered
`max(1, line-2)` to `min(n, line+2)` (none when that range is empty), every one
of them a line of the source; the arrow and the caret line belong to the line
numbered `line`, which is in that range once when `1 <= line <= n` and not at all
otherwise. -/
theorem context_excerpt_in_range (lines : List String) (line col : Int)
    (hline : -9223372036854775808 ≤ line ∧ line < 9223372036854775808)
    (hcol : 0 ≤ col ∧ col + 8 < 9223372036854775808)
    (hn : (lines.length : Int) < 4611686018427387904) :
    TypeScript.contextLines lines line col
        = .ok (specContext lines line col (max 1 (line - 2)) (min (lines.length : Int) (line + 2)))
      ∧ (∀ num ∈ lineNumbers (max 1 (line - 2)) (min (lines.length : Int) (line + 2)),
          1 ≤ num ∧ num ≤ lines.length)
      ∧ (lineNumbers (max 1 (line - 2)) (min (lines.length : Int) (line + 2))).count line
          = if 1 ≤ line ∧ line ≤ lines.length then 1 else 0 := by
  obtain ⟨h0, hstop, hcases⟩ :=
    context_bounds lines.length line (by omega) hn hline.1 hline.2
  refine ⟨?_, ?_, ?_⟩
  · unfold TypeScript.contextLines
    rw [contextLoop_eq lines line col _ hcol.1 hcol.2 hstop _ _ _ h0 (by omega), List.nil_append]
    congr 1
    unfold specContext
    rcases hcases with ⟨e1, e2⟩ | ⟨e1, e2⟩
    · rw [e1, e2]
    · rw [lineNumbers_empty _ _ e1, lineNumbers_empty _ _ e2]
  · intro num hnum
    rw [mem_lineNumbers] at hnum
    omega
  · rw [List.count_eq_of_nodup (nodup_lineNumbers _ _)]
    simp only [mem_lineNumbers]
    have : (max 1 (line - 2) ≤ line ∧ line ≤ min (lines.length : Int) (line + 2))
        ↔ (1 ≤ line ∧ line ≤ lines.length) := by
      constructor <;> intro h <;> omega
    simp only [this]

/-- Witness of C14: an error at line 4, column 11 of a source of six lines; the
excerpt shows the lines 2 to 6. -/
theorem context_excerpt_in_range_witness :
    ((-9223372036854775808 : Int) ≤ 4 ∧ (4 : Int) < 9223372036854775808)
      ∧ ((0 : Int) ≤ 11 ∧ (11 : Int) + 8 < 9223372036854775808)
      ∧ TypeScript.contextLines sampleSource 4 11
          = .ok (specContext sampleSource 4 11 (max 1 (4 - 2))
              (min (sampleSource.length : Int) (4 + 2)))
      ∧ (∀ num ∈ lineNumbers (max 1 (4 - 2)) (min (sampleSource.length : Int) (4 + 2)),
          1 ≤ num ∧ num ≤ sampleSource.length)
      ∧ (lineNumbers (max 1 (4 - 2)) (min (sampleSource.length : Int) (4 + 2))).count 4
          = if (1 : Int) ≤ 4 ∧ (4 : Int) ≤ sampleSource.length then 1 else 0 :=
  ⟨by decide, by decide,
    context_excerpt_in_range sampleSource 4 11 (by decide) (by decide) (by decide)⟩
